import Mathlib

/-!
Verification of `stress_hitm`, the shared-buffer contention benchmark.

A shallow embedding of `sched_scripts/stress_hitm.c`.  Memory is a byte-addressed map;
machine integers are naturals or integers reduced explicitly at their width.  The target
named by the source (x86-64: LP64, little-endian, glibc) provides `sizeof`, alignment, the
layout of `struct buffer_header` and the representation of `pthread_spinlock_t`.
-/

namespace StressHitm

/-! ## Constants and machine integers -/

/-- Cache line size, `#define CACHE_LINE_SIZE 64`. -/
def CACHE_LINE_SIZE : Nat := 64

/-- Buffer size, `#define BUFFER_SIZE 4096`. -/
def BUFFER_SIZE : Nat := 4096

/-- Number of values of a 64-bit unsigned integer (`unsigned long long`, `unsigned long`,
`pthread_t`). -/
def U64 : Nat := 18446744073709551616

/-- Number of values of a 32-bit integer (`int`, `unsigned int`). -/
def U32 : Nat := 4294967296

/-- Largest value `rand_r` may return, `RAND_MAX` of glibc. -/
def RAND_MAX : Int := 2147483647

/-- Sentinel owner, `#define INVALID_PTHREAD_ID ((pthread_t)-1)`: all bits set. -/
def INVALID_PTHREAD_ID : Nat := U64 - 1

/-- Conversion of an integer to `int`: reduction modulo 2^32 into the signed range. -/
def toInt32 (x : Int) : Int :=
  if (x % 4294967296).toNat < 2147483648 then x % 4294967296 else x % 4294967296 - 4294967296

/-- Bit pattern of an `int` as a 32-bit unsigned number (two's complement). -/
def bits32 (x : Int) : Nat := (x % 4294967296).toNat

/-- Bitwise `&` on `int`, computed on the two's complement bit patterns. -/
def int_and (a b : Int) : Int := toInt32 ((bits32 a &&& bits32 b : Nat) : Int)

/-- Bitwise `~` on `int`. -/
def int_not (a : Int) : Int := toInt32 ((4294967295 - bits32 a : Nat) : Int)

/-- C library `abs` on a value other than `INT_MIN`. -/
def c_abs (x : Int) : Int := if x < 0 then -x else x

/-- C operator `%` on `int`: undefined for a zero divisor, otherwise the remainder of
the division truncated towards zero. -/
def c_rem (a b : Int) : Option Int := if b = 0 then none else some (Int.tmod a b)

/-! ## Layout of `struct buffer_header` (LP64, glibc) -/

/-- Size of `pthread_spinlock_t` (a `volatile int`). -/
def sizeof_pthread_spinlock_t : Nat := 4

/-- Size of `pthread_t` (an `unsigned long`). -/
def sizeof_pthread_t : Nat := 8

/-- Alignment of `pthread_t`. -/
def alignof_pthread_t : Nat := 8

/-- Size of `unsigned long long`. -/
def sizeof_unsigned_long_long : Nat := 8

/-- Size of `unsigned long`. -/
def sizeof_unsigned_long : Nat := 8

/-- Round `x` up to the next multiple of `a`. -/
def align_up (x a : Nat) : Nat := (x + a - 1) / a * a

/-- Offset of the member `lock`, the first member of the header. -/
def offsetof_lock : Nat := 0

/-- Offset of the member `thread_id`: the end of `lock` rounded up to the alignment of
`pthread_t`. -/
def offsetof_thread_id : Nat :=
  align_up (offsetof_lock + sizeof_pthread_spinlock_t) alignof_pthread_t

/-- Length of the member
`char padding[CACHE_LINE_SIZE - sizeof(pthread_spinlock_t) - sizeof(pthread_t)]`. -/
def padding_length : Nat := CACHE_LINE_SIZE - sizeof_pthread_spinlock_t - sizeof_pthread_t

/-- Offset of the member `padding`, directly after `thread_id`. -/
def offsetof_padding : Nat := offsetof_thread_id + sizeof_pthread_t

/-- Value of `sizeof(struct buffer_header)`: the end of the last member rounded up to the
alignment `__attribute__((aligned(CACHE_LINE_SIZE)))` of the struct. -/
def sizeof_buffer_header : Nat := align_up (offsetof_padding + padding_length) CACHE_LINE_SIZE

/-! ## Memory -/

/-- Byte-addressed memory: the byte stored at each address. -/
structure Memory where
  bytes : Nat → Nat

/-- Read one byte. -/
def load8 (m : Memory) (a : Nat) : Nat := m.bytes a % 256

/-- Read a little-endian 32-bit word at address `a`. -/
def load32 (m : Memory) (a : Nat) : Nat :=
  load8 m a + 256 * (load8 m (a + 1) + 256 * (load8 m (a + 2) + 256 * load8 m (a + 3)))

/-- Read a little-endian 64-bit word at address `a`. -/
def load64 (m : Memory) (a : Nat) : Nat :=
  load8 m a + 256 * (load8 m (a + 1) + 256 * (load8 m (a + 2) + 256 * (load8 m (a + 3)
    + 256 * (load8 m (a + 4) + 256 * (load8 m (a + 5) + 256 * (load8 m (a + 6)
    + 256 * load8 m (a + 7)))))))

/-- Write a little-endian 32-bit word at address `a`. -/
def store32 (m : Memory) (a v : Nat) : Memory :=
  { bytes := fun x => if a ≤ x ∧ x < a + 4 then v / 256 ^ (x - a) % 256 else m.bytes x }

/-- Write a little-endian 64-bit word at address `a`. -/
def store64 (m : Memory) (a v : Nat) : Memory :=
  { bytes := fun x => if a ≤ x ∧ x < a + 8 then v / 256 ^ (x - a) % 256 else m.bytes x }

/-- C library `memset(a, c, n)`. -/
def memset (m : Memory) (a c n : Nat) : Memory :=
  { bytes := fun x => if a ≤ x ∧ x < a + n then c % 256 else m.bytes x }

/-! ## Spinlocks

glibc on x86-64 keeps a `pthread_spinlock_t` as an `int` that is 1 while the lock is free:
`pthread_spin_init` and `pthread_spin_unlock` are `movl $1, (%rdi)`, and
`pthread_spin_trylock` is `lock cmpxchgl` of 1 for 0, which returns `EBUSY` when the value
found was not 1. -/

/-- Value of a free spinlock. -/
def SPIN_FREE : Nat := 1

/-- Value a successful `pthread_spin_trylock` leaves in the lock. -/
def SPIN_HELD : Nat := 0

/-- glibc `pthread_spin_init`: store 1.  It cannot fail, so the error branch of the caller
is never taken. -/
def pthread_spin_init (m : Memory) (a : Nat) : Memory := store32 m a SPIN_FREE

/-- Result of `pthread_spin_trylock`: `EBUSY` or success. -/
inductive TryLock where
  | busy : TryLock
  | acquired : TryLock
  deriving DecidableEq, Repr

/-- State change of a successful `pthread_spin_trylock` on the lock at `a`. -/
def spin_acquire (m : Memory) (a : Nat) : Memory := store32 m a SPIN_HELD

/-- glibc `pthread_spin_trylock`: if the lock word is 1 it becomes 0 and the call succeeds,
otherwise the call returns `EBUSY` and changes nothing. -/
def pthread_spin_trylock (m : Memory) (a : Nat) : TryLock × Memory :=
  if load32 m a = SPIN_FREE then (TryLock.acquired, spin_acquire m a)
  else (TryLock.busy, m)

/-- glibc `pthread_spin_unlock`: store 1. -/
def pthread_spin_unlock (m : Memory) (a : Nat) : Memory := store32 m a SPIN_FREE

/-! ## Buffers and the shared pool -/

/-- Source function `initialize_buffer`: set the owner to the sentinel, construct the lock,
zero everything after the header. -/
def initialize_buffer (buffer : Nat) (m : Memory) : Memory :=
  let m1 := store64 m (buffer + offsetof_thread_id) INVALID_PTHREAD_ID
  let m2 := pthread_spin_init m1 (buffer + offsetof_lock)
  memset m2 (buffer + sizeof_buffer_header) 0 (BUFFER_SIZE - sizeof_buffer_header)

/-- Loop of `init_shared_buffer_pool`, `for (p = pool; p < pool + pool_size; p += BUFFER_SIZE)`,
with an iteration budget; `none` when the budget ends before the loop does. -/
def init_shared_buffer_pool_loop : Nat → Nat → Nat → Memory → Option Memory
  | 0, p, limit, m => if p < limit then none else some m
  | fuel + 1, p, limit, m =>
    if p < limit then
      init_shared_buffer_pool_loop fuel (p + BUFFER_SIZE) limit (initialize_buffer p m)
    else some m

/-- Source function `init_shared_buffer_pool`. -/
def init_shared_buffer_pool (pool pool_size : Nat) (m : Memory) : Option Memory :=
  init_shared_buffer_pool_loop (pool_size / BUFFER_SIZE + 1) pool (pool + pool_size) m

/-- Source function `dirty_buffer_intensive`: `data[i] += 1` for each of the
`BUFFER_SIZE / sizeof(unsigned long long)` words starting at `buffer`. -/
def dirty_buffer_intensive (buffer : Nat) (m : Memory) : Memory :=
  (List.range (BUFFER_SIZE / sizeof_unsigned_long_long)).foldl
    (fun mem i =>
      store64 mem (buffer + sizeof_unsigned_long_long * i)
        ((load64 mem (buffer + sizeof_unsigned_long_long * i) + 1) % U64))
    m

/-- Source function `release_buffer`; glibc's `pthread_spin_unlock` returns 0, so the fatal
branch is never taken. -/
def release_buffer (buffer : Nat) (m : Memory) : Memory :=
  pthread_spin_unlock m (buffer + offsetof_lock)

/-! ## Worker records -/

/-- Source type `struct thread_data`. -/
structure thread_data where
  seed : Nat
  total_contention_attempts : Nat
  locked_by_others : Nat
  deriving DecidableEq, Repr

/-- A private worker buffer seen as `unsigned long` words: `size` words are allocated, and
an access outside of them has no defined result. -/
structure WordBuffer where
  size : Nat
  data : Nat → Nat

/-- Read word `i` of a private buffer. -/
def WordBuffer.read (b : WordBuffer) (i : Nat) : Option Nat :=
  if i < b.size then some (b.data i % U64) else none

/-- Write word `i` of a private buffer. -/
def WordBuffer.write (b : WordBuffer) (i v : Nat) : Option WordBuffer :=
  if i < b.size then some { b with data := fun x => if x = i then v % U64 else b.data x }
  else none

/-- Source type `struct work_instance`; `worker_data` and `worker_buffer` are `none` while
the pointer is unset. -/
structure work_instance where
  thread_id : Int
  is_shared : Int
  tid : Nat
  pool_size_bytes : Nat
  test_duration_sec : Nat
  worker_data : Option thread_data
  worker_buffer : Option WordBuffer

/-! ## Buffer selection and acquisition -/

/-- Offset computation of `contend_for_buffer`:
`buffer_offset = abs(random_val) % (int)pool_size; buffer_offset &= ~(BUFFER_SIZE - 1);`.
The result is `none` when the remainder is undefined. -/
def draw_offset (random_val : Int) (pool_size : Nat) : Option Int :=
  (c_rem (c_abs random_val) (toInt32 (pool_size : Int))).map
    (fun buffer_offset => int_and buffer_offset (int_not ((BUFFER_SIZE : Int) - 1)))

/-- What a call of `contend_for_buffer` has done once the supplied lock outcomes are used up. -/
inductive Contend where
  | undefined : Contend
  | spinning : thread_data → Contend
  | returned : Nat → thread_data → Memory → Contend

/-- Source function `contend_for_buffer`.  `rand_r` maps the seed to the drawn value and the
next seed; `pool` is the global `shared_worker_buffer_pool`; the list gives the result of
each successive `pthread_spin_trylock`, which depends on the other threads.  Every iteration
draws, counts the attempt, and either counts a failure and retries or takes the lock, tags the
owner and returns the buffer. -/
def contend_for_buffer (rand_r : Nat → Int × Nat) (pool : Nat) (wi : work_instance) :
    List TryLock → thread_data → Memory → Contend
  | [], dp, _ => Contend.spinning dp
  | outcome :: rest, dp, m =>
    match draw_offset (rand_r dp.seed).1 wi.pool_size_bytes with
    | none => Contend.undefined
    | some buffer_offset =>
      let dp1 : thread_data :=
        { dp with
          seed := (rand_r dp.seed).2
          total_contention_attempts := (dp.total_contention_attempts + 1) % U64 }
      let buffer := ((pool : Int) + buffer_offset).toNat
      match outcome with
      | TryLock.busy =>
        contend_for_buffer rand_r pool wi rest
          { dp1 with locked_by_others := (dp1.locked_by_others + 1) % U64 } m
      | TryLock.acquired =>
        Contend.returned buffer dp1
          (store64 (spin_acquire m (buffer + offsetof_lock)) (buffer + offsetof_thread_id) wi.tid)

/-- Owner tag of the buffer at `buffer`: the member `thread_id` of its header. -/
def owner_tag (m : Memory) (buffer : Nat) : Nat := load64 m (buffer + offsetof_thread_id)

/-- The two statements `buffer = contend_for_buffer(wi); dirty_buffer_intensive(buffer);` of
`run`. -/
def acquire_and_dirty (rand_r : Nat → Int × Nat) (pool : Nat) (wi : work_instance)
    (outcomes : List TryLock) (dp : thread_data) (m : Memory) : Contend :=
  match contend_for_buffer rand_r pool wi outcomes dp m with
  | Contend.returned buffer dp1 m1 =>
    Contend.returned buffer dp1 (dirty_buffer_intensive buffer m1)
  | other => other

/-- Buffer returned by a call, if it returned. -/
def Contend.buffer : Contend → Option Nat
  | Contend.returned buffer _ _ => some buffer
  | _ => none

/-- Counters `(total_contention_attempts, locked_by_others)` after a call that returned. -/
def Contend.counters : Contend → Option (Nat × Nat)
  | Contend.returned _ dp _ => some (dp.total_contention_attempts, dp.locked_by_others)
  | _ => none

/-- Lock word of the returned buffer. -/
def Contend.lock : Contend → Option Nat
  | Contend.returned buffer _ m => some (load32 m (buffer + offsetof_lock))
  | _ => none

/-- Owner tag of the returned buffer. -/
def Contend.owner : Contend → Option Nat
  | Contend.returned buffer _ m => some (owner_tag m buffer)
  | _ => none

/-- Seed left by `n` calls of `rand_r`. -/
def seed_after (rand_r : Nat → Int × Nat) (n seed : Nat) : Nat :=
  (fun s => (rand_r s).2)^[n] seed

/-- Memory as an allocator may hand it out: every byte 0xAA. -/
def stale_memory : Memory := ⟨fun _ => 170⟩

/-- A generator for examples: draws the seed itself and steps it by 5000. -/
def sample_rand_r : Nat → Int × Nat := fun seed => ((seed : Int), seed + 5000)

/-- A shared-mode worker record for examples: thread identifier `tid`, pool of `pool_size`
bytes. -/
def sample_worker (tid pool_size : Nat) : work_instance :=
  { thread_id := 0, is_shared := 1, tid := tid, pool_size_bytes := pool_size,
    test_duration_sec := 1, worker_data := none, worker_buffer := none }

/-! ## Worker initialisation -/

/-- Process-wide state touched by `init`: the global `shared_worker_buffer_pool` (0 is `NULL`),
the memory, and a counter of pool creations kept for verification only. -/
structure Globals where
  shared_worker_buffer_pool : Nat
  mem : Memory
  pool_creations : Nat

/-- Answers of the C library to one call of `init`: the clock, whether `calloc` and `malloc`
succeed, and the address returned by `aligned_alloc(alignment, size)` (0 is `NULL`). -/
structure Env where
  now : Int
  calloc_ok : Bool
  malloc_ok : Bool
  aligned_alloc : Nat → Nat → Nat

/-- Fatal exits of `init` (`err`, `errx`), and the case of a pool loop that did not end. -/
inductive Fatal where
  | calloc_failed : Fatal
  | pool_size_not_aligned : Fatal
  | aligned_alloc_failed : Fatal
  | malloc_failed : Fatal
  | unfinished : Fatal
  deriving DecidableEq, Repr

/-- Source function `init`.  The section between `pthread_mutex_lock` and
`pthread_mutex_unlock` runs as one step, which is what the mutex enforces. -/
def init (env : Env) (wi : work_instance) (g : Globals) : Except Fatal (work_instance × Globals) :=
  if env.calloc_ok = false then Except.error Fatal.calloc_failed
  else
    let dp : thread_data :=
      { seed := ((wi.thread_id * env.now) % 4294967296).toNat
        total_contention_attempts := 0
        locked_by_others := 0 }
    let wi1 : work_instance := { wi with worker_data := some dp }
    if wi1.is_shared ≠ 0 then
      if wi1.pool_size_bytes % BUFFER_SIZE ≠ 0 then Except.error Fatal.pool_size_not_aligned
      else if g.shared_worker_buffer_pool = 0 then
        let pool := env.aligned_alloc BUFFER_SIZE wi1.pool_size_bytes
        if pool = 0 then Except.error Fatal.aligned_alloc_failed
        else
          match init_shared_buffer_pool pool wi1.pool_size_bytes g.mem with
          | none => Except.error Fatal.unfinished
          | some mem =>
            Except.ok (wi1,
              { shared_worker_buffer_pool := pool
                mem := mem
                pool_creations := g.pool_creations + 1 })
      else Except.ok (wi1, g)
    else if env.malloc_ok = false then Except.error Fatal.malloc_failed
    else
      Except.ok
        ({ wi1 with
            worker_buffer :=
              some { size := wi1.pool_size_bytes / sizeof_unsigned_long, data := fun _ => 0 } },
          g)

/-- Library answers for examples: the clock reads 1000, every allocation succeeds, and
`aligned_alloc` returns the address 4096. -/
def sample_env : Env :=
  { now := 1000, calloc_ok := true, malloc_ok := true, aligned_alloc := fun _ _ => 4096 }

/-- The calls of `init` made by the workers, in the order in which the initialisation mutex
lets them through. -/
def init_all : List (Env × work_instance) → Globals → Except Fatal (List work_instance × Globals)
  | [], g => Except.ok ([], g)
  | (env, wi) :: rest, g =>
    match init env wi g with
    | Except.error f => Except.error f
    | Except.ok (wi1, g1) =>
      match init_all rest g1 with
      | Except.error f => Except.error f
      | Except.ok (wis, g2) => Except.ok (wi1 :: wis, g2)

/-- Globals left by a sequence of `init` calls, when none of them was fatal. -/
def globals_after (calls : List (Env × work_instance)) (g : Globals) : Option Globals :=
  match init_all calls g with
  | Except.error _ => none
  | Except.ok (_, g1) => some g1

/-! ## The run loop of shared-mode workers, interleaved -/

/-- Position of a worker inside `run`: at the time check at the top of the loop, retrying
inside `contend_for_buffer`, holding the buffer it just acquired, having dirtied it, or past
the loop. -/
inductive Pc where
  | top : Pc
  | contending : Pc
  | holding : Nat → Pc
  | dirtied : Nat → Pc
  | finished : Pc
  deriving DecidableEq, Repr

/-- Record of a lock operation, as an instrumented run would log it. -/
inductive LogEntry where
  | acquired : Nat → LogEntry
  | wrote : Nat → LogEntry
  | released : Nat → LogEntry
  deriving DecidableEq, Repr

/-- State of a run: the shared memory, every worker's position and private counters, and the
log of lock operations (worker index, operation), oldest first. -/
structure World where
  mem : Memory
  pc : Nat → Pc
  data : Nat → thread_data
  log : List (Nat × LogEntry)

/-- Fixed parameters of a run. -/
structure Setup where
  rand_r : Nat → Int × Nat
  pool : Nat
  workers : Nat → work_instance

/-- One operation of one worker. -/
inductive Action where
  | attempt : Nat → Action
  | dirty : Nat → Action
  | release : Nat → Action
  | timeout : Nat → Action
  deriving DecidableEq, Repr

/-- Address of the buffer that worker `w` draws next. -/
def next_buffer (cfg : Setup) (s : World) (w : Nat) : Option Nat :=
  (draw_offset (cfg.rand_r (s.data w).seed).1 (cfg.workers w).pool_size_bytes).map
    (fun buffer_offset => ((cfg.pool : Int) + buffer_offset).toNat)

/-- One operation of `run` in shared mode.  `attempt` is one iteration of the loop of
`contend_for_buffer`, whose `pthread_spin_trylock` acts on the lock word in the shared memory;
`dirty` is `dirty_buffer_intensive(buffer)`; `release` is `release_buffer(buffer)` on the
`buffer` of the same iteration; `timeout` leaves the loop at the time check.  `none` when the
worker is not at that operation, or when the operation is undefined. -/
def step (cfg : Setup) (s : World) : Action → Option World
  | Action.attempt w =>
    if s.pc w = Pc.top ∨ s.pc w = Pc.contending then
      match next_buffer cfg s w with
      | none => none
      | some target =>
        match contend_for_buffer cfg.rand_r cfg.pool (cfg.workers w)
            [(pthread_spin_trylock s.mem (target + offsetof_lock)).1] (s.data w) s.mem with
        | Contend.undefined => none
        | Contend.spinning dp =>
          some { s with
            pc := fun x => if x = w then Pc.contending else s.pc x
            data := fun x => if x = w then dp else s.data x }
        | Contend.returned buffer dp mem =>
          some
            { mem := mem
              pc := fun x => if x = w then Pc.holding buffer else s.pc x
              data := fun x => if x = w then dp else s.data x
              log := s.log ++ [(w, LogEntry.acquired buffer)] }
    else none
  | Action.dirty w =>
    match s.pc w with
    | Pc.holding buffer =>
      some { s with
        mem := dirty_buffer_intensive buffer s.mem
        pc := fun x => if x = w then Pc.dirtied buffer else s.pc x
        log := s.log ++ [(w, LogEntry.wrote buffer)] }
    | _ => none
  | Action.release w =>
    match s.pc w with
    | Pc.dirtied buffer =>
      some { s with
        mem := release_buffer buffer s.mem
        pc := fun x => if x = w then Pc.top else s.pc x
        log := s.log ++ [(w, LogEntry.released buffer)] }
    | _ => none
  | Action.timeout w =>
    if s.pc w = Pc.top then some { s with pc := fun x => if x = w then Pc.finished else s.pc x }
    else none

/-- Run a schedule: the operations in the order in which they take effect. -/
def exec (cfg : Setup) : List Action → World → Option World
  | [], s => some s
  | a :: rest, s =>
    match step cfg s a with
    | none => none
    | some s1 => exec cfg rest s1

/-- State when the workers enter `run`: every worker at the top of its loop, nothing logged. -/
def start (m : Memory) (data : Nat → thread_data) : World :=
  { mem := m, pc := fun _ => Pc.top, data := data, log := [] }

/-- Log entries of worker `w`, oldest first. -/
def log_of (w : Nat) (log : List (Nat × LogEntry)) : List LogEntry :=
  (log.filter (fun e => e.1 = w)).map (fun e => e.2)

/-- What the log of every reachable state of a run satisfies: a worker holding a buffer logged
its acquisition last, one that dirtied it logged the acquisition and the write last, and every
logged release follows, in the log of the same worker, the acquisition and the write of the
same buffer. -/
def log_discipline (s : World) : Prop :=
  (∀ w buffer, s.pc w = Pc.holding buffer →
      ∃ earlier, log_of w s.log = earlier ++ [LogEntry.acquired buffer])
  ∧ (∀ w buffer, s.pc w = Pc.dirtied buffer →
      ∃ earlier, log_of w s.log = earlier ++ [LogEntry.acquired buffer, LogEntry.wrote buffer])
  ∧ (∀ before after w buffer, s.log = before ++ (w, LogEntry.released buffer) :: after →
      ∃ earlier,
        log_of w before = earlier ++ [LogEntry.acquired buffer, LogEntry.wrote buffer])

/-- Setup for examples: a pool of one buffer at address 4096, worker `w` with thread identifier
`100 + w`. -/
def sample_setup : Setup :=
  { rand_r := sample_rand_r, pool := 4096, workers := fun w => sample_worker (100 + w) 4096 }

/-- Private data for examples: worker `w` starts from the seed `5000 + w`. -/
def sample_data : Nat → thread_data := fun w => ⟨5000 + w, 0, 0⟩

/-- Memory for examples: stale memory in which the buffer at 4096 has been initialised. -/
def sample_pool : Memory := initialize_buffer 4096 stale_memory

/-- Schedule for examples: worker 0 acquires the buffer, worker 1 finds it locked, worker 0
dirties it, worker 1 tries again. -/
def sample_schedule : List Action :=
  [Action.attempt 0, Action.attempt 1, Action.dirty 0, Action.attempt 1]

/-! ## Baseline workload -/

/-- Halving loop for the position of the leading bit, with an iteration budget. -/
def floor_log2_loop : Nat → Nat → Nat
  | 0, _ => 0
  | fuel + 1, n => if 2 ≤ n then floor_log2_loop fuel (n / 2) + 1 else 0

/-- Position of the leading bit of a positive number below 2^128: the `b` with
`2 ^ b ≤ n < 2 ^ (b + 1)`. -/
def floor_log2 (n : Nat) : Nat := floor_log2_loop 128 n

/-- Conversion of a 64-bit unsigned integer to `double` (round to nearest, ties to even),
given as the integer value of the resulting `double`: integers below 2^53 are exact, larger
ones keep their 53 leading bits. -/
def u64_to_double (n : Nat) : Nat :=
  if n < 9007199254740992 then n
  else
    let shift := floor_log2 n - 52
    let q := n / 2 ^ shift
    let r := n % 2 ^ shift
    let half := 2 ^ (shift - 1)
    if half < r ∨ (r = half ∧ q % 2 = 1) then (q + 1) * 2 ^ shift else q * 2 ^ shift

/-- A non-negative `double` given by a significand and a binary scale: `(m, k)` stands for
`m / 2 ^ k`. -/
abbrev Scaled : Type := Nat × Nat

/-- Bisection for the integer square root: `r` is the root found so far, and the bits below
`2 ^ bits` are still to be decided, highest first. -/
def isqrt_loop : Nat → Nat → Nat → Nat
  | 0, r, _ => r
  | bits + 1, r, n =>
    if (r + 2 ^ bits) * (r + 2 ^ bits) ≤ n then isqrt_loop bits (r + 2 ^ bits) n
    else isqrt_loop bits r n

/-- Integer square root of a number below 2^128: the largest `t` with `t * t ≤ n`. -/
def isqrt (n : Nat) : Nat := isqrt_loop 64 0 n

/-- C library `sqrt` on a `double` with the positive integer value `x < 2^105`, correctly
rounded as IEEE 754 requires.  With `k` chosen so that `2^104 ≤ x * 4^k < 2^106`, the exact
root times `2^k` lies in `[2^52, 2^53)`, where the doubles are the integers over `2^k`; it is
rounded to the nearest integer `m` (a tie cannot occur), and the result is `m / 2^k`. -/
def sqrt_double (x : Nat) : Scaled :=
  if x = 0 then (0, 0)
  else
    let k := (105 - floor_log2 x) / 2
    let y := x * 4 ^ k
    let t := isqrt y
    if t < y - t * t then (t + 1, k) else (t, k)

/-- Conversion of a non-negative `double` to `unsigned long`: truncation. -/
def double_to_ulong (d : Scaled) : Nat := d.1 / 2 ^ d.2 % U64

/-- The assignment in `main`,
`matrix_size = sqrt(pool_size_bytes / 3 / sizeof(unsigned long));`. -/
def compute_matrix_size (pool_size_bytes : Nat) : Nat :=
  double_to_ulong (sqrt_double (u64_to_double (pool_size_bytes / 3 / sizeof_unsigned_long)))

/-- Left fold whose body may fail. -/
def fold_opt {σ α : Type} (f : σ → α → Option σ) : List α → σ → Option σ
  | [], s => some s
  | a :: rest, s =>
    match f s a with
    | none => none
    | some s1 => fold_opt f rest s1

/-- Innermost statement of `do_some_math`,
`m3[i * matrix_size + j] += m1[i * matrix_size + k] * m2[k * matrix_size + j];`
with `m1 = buf`, `m2 = buf + matrix_size * matrix_size`,
`m3 = buf + 2 * matrix_size * matrix_size`. -/
def math_inner (matrix_size i j : Nat) (buf : WordBuffer) (k : Nat) : Option WordBuffer :=
  match buf.read (2 * matrix_size * matrix_size + (i * matrix_size + j)),
      buf.read (i * matrix_size + k),
      buf.read (matrix_size * matrix_size + (k * matrix_size + j)) with
  | some c, some a, some b =>
    buf.write (2 * matrix_size * matrix_size + (i * matrix_size + j)) ((c + a * b) % U64)
  | _, _, _ => none

/-- Body of the loop over `j` in `do_some_math`: clear the output cell, then accumulate. -/
def math_cell (matrix_size i : Nat) (buf : WordBuffer) (j : Nat) : Option WordBuffer :=
  match buf.write (2 * matrix_size * matrix_size + (i * matrix_size + j)) 0 with
  | none => none
  | some buf1 => fold_opt (math_inner matrix_size i j) (List.range matrix_size) buf1

/-- Source function `do_some_math` on the global `matrix_size`; `none` when a word outside
the buffer is read or written. -/
def do_some_math (matrix_size : Nat) (buf : WordBuffer) : Option WordBuffer :=
  fold_opt
    (fun b i => fold_opt (math_cell matrix_size i) (List.range matrix_size) b)
    (List.range matrix_size) buf

/-! ## Command line -/

/-- Test `str[i] < '0' || str[i] > '9'` of `is_positive_int`, negated. -/
def is_digit (c : Char) : Bool := decide (48 ≤ c.toNat) && decide (c.toNat ≤ 57)

/-- C library `isspace` in the C locale. -/
def is_space (c : Char) : Bool := decide (c.toNat = 32) || (decide (9 ≤ c.toNat) && decide (c.toNat ≤ 13))

/-- Value of a string of decimal digits. -/
def digits_value (s : List Char) : Nat := s.foldl (fun acc c => 10 * acc + (c.toNat - 48)) 0

/-- Strip the optional sign that `strtol` and `strtoull` accept; `true` for a minus sign. -/
def strip_sign : List Char → Bool × List Char
  | '-' :: rest => (true, rest)
  | '+' :: rest => (false, rest)
  | s => (false, s)

/-- C library `strtol(s, NULL, 10)` on a 64-bit `long`: leading white space, an optional
sign, the longest run of digits, clamped to the range of `long`. -/
def strtol (s : List Char) : Int :=
  let body := strip_sign (s.dropWhile is_space)
  let v : Int := (digits_value (body.2.takeWhile is_digit) : Int)
  if body.1 then max (-v) (-9223372036854775808) else min v 9223372036854775807

/-- C library `atoi`, which glibc defines as `(int) strtol(s, NULL, 10)`. -/
def atoi (s : List Char) : Int := toInt32 (strtol s)

/-- C library `strtoull(s, NULL, 10)`: as `strtol`, with the result `ULLONG_MAX` on overflow
and a negated value taken modulo 2^64. -/
def strtoull (s : List Char) : Nat :=
  let body := strip_sign (s.dropWhile is_space)
  let v := digits_value (body.2.takeWhile is_digit)
  if U64 ≤ v then U64 - 1 else if body.1 then (U64 - v) % U64 else v

/-- Source function `is_positive_int`. -/
def is_positive_int (str : List Char) : Bool :=
  if str = [] then false
  else if str.all is_digit then decide (0 < atoi str)
  else false

/-- The messages `main` prints before the usage text. -/
inductive ArgError where
  | argument_count : ArgError
  | thread_count : ArgError
  | pool_size : ArgError
  | pool_size_multiple : ArgError
  | duration : ArgError
  deriving DecidableEq, Repr

/-- Observable steps of `main`. -/
inductive MainEvent where
  | error_message : ArgError → MainEvent
  | usage : MainEvent
  | exit_failure : MainEvent
  | calloc_workers : Int → MainEvent
  | start_timer : MainEvent
  | banner : MainEvent
  | pthread_create : Nat → MainEvent
  | pthread_join : Nat → MainEvent
  | stop_timer : MainEvent
  | report : MainEvent
  | exit_success : MainEvent
  deriving DecidableEq, Repr

/-- Values `main` derives from a command line it accepts. -/
structure Config where
  num_threads : Int
  pool_size_kb : Nat
  pool_size_bytes : Nat
  test_duration_sec : Nat
  is_shared : Int
  matrix_size : Nat
  deriving DecidableEq, Repr

/-- Source function `show_usage` after the message of its caller: the usage text, then
`exit(EXIT_FAILURE)`. -/
def show_usage (e : ArgError) : List MainEvent :=
  [MainEvent.error_message e, MainEvent.usage, MainEvent.exit_failure]

/-- Result of the argument handling of `main`: the steps of a usage exit, or the values of an
accepted command line. -/
inductive Parsed where
  | rejected : List MainEvent → Parsed
  | accepted : Config → Parsed
  deriving DecidableEq, Repr

/-- Argument handling of `main`, from the check of `argc` to the assignment of `matrix_size`
(whose initial value is 0).  The list is `argv`, program name first. -/
def parse_args : List (List Char) → Parsed
  | [_, a1, a2, a3, a4] =>
    if is_positive_int a1 = false then Parsed.rejected (show_usage ArgError.thread_count)
    else if is_positive_int a2 = false then Parsed.rejected (show_usage ArgError.pool_size)
    else if strtoull a2 % 4 ≠ 0 then Parsed.rejected (show_usage ArgError.pool_size_multiple)
    else if is_positive_int a3 = false then Parsed.rejected (show_usage ArgError.duration)
    else
      Parsed.accepted
        { num_threads := atoi a1
          pool_size_kb := strtoull a2
          pool_size_bytes := strtoull a2 * 1024 % U64
          test_duration_sec := (atoi a3 % 4294967296).toNat
          is_shared := atoi a4
          matrix_size :=
            if atoi a4 = 0 then compute_matrix_size (strtoull a2 * 1024 % U64) else 0 }
  | _ => Parsed.rejected (show_usage ArgError.argument_count)

/-- The rest of `main` when every allocation and thread creation succeeds: allocate the worker
records, start the timer, create and join the threads, report. -/
def drive (cfg : Config) : List MainEvent :=
  [MainEvent.calloc_workers cfg.num_threads, MainEvent.start_timer, MainEvent.banner]
    ++ (List.range cfg.num_threads.toNat).map MainEvent.pthread_create
    ++ (List.range cfg.num_threads.toNat).map MainEvent.pthread_join
    ++ [MainEvent.stop_timer, MainEvent.report, MainEvent.exit_success]

/-- Source function `main`, as the sequence of its observable steps. -/
def main (argv : List (List Char)) : List MainEvent :=
  match parse_args argv with
  | Parsed.rejected events => events
  | Parsed.accepted cfg => drive cfg

/-- An event that allocates worker records or starts a thread; the pools are allocated by the
threads, in `init`. -/
def allocates_or_spawns : MainEvent → Bool
  | MainEvent.calloc_workers _ => true
  | MainEvent.pthread_create _ => true
  | _ => false

/-! ## Memory lemmas -/

theorem load8_lt (m : Memory) (a : Nat) : load8 m a < 256 :=
  Nat.mod_lt _ (by decide)

theorem load64_lt (m : Memory) (a : Nat) : load64 m a < U64 := by
  have h0 := load8_lt m a
  have h1 := load8_lt m (a + 1)
  have h2 := load8_lt m (a + 2)
  have h3 := load8_lt m (a + 3)
  have h4 := load8_lt m (a + 4)
  have h5 := load8_lt m (a + 5)
  have h6 := load8_lt m (a + 6)
  have h7 := load8_lt m (a + 7)
  unfold load64 U64
  omega

theorem store64_bytes_outside (m : Memory) (a v x : Nat) (h : ¬(a ≤ x ∧ x < a + 8)) :
    (store64 m a v).bytes x = m.bytes x := by
  simp only [store64, if_neg h]

theorem store32_bytes_outside (m : Memory) (a v x : Nat) (h : ¬(a ≤ x ∧ x < a + 4)) :
    (store32 m a v).bytes x = m.bytes x := by
  simp only [store32, if_neg h]

theorem store32_load8_inside (m : Memory) (a v j : Nat) (hj : j < 4) :
    load8 (store32 m a v) (a + j) = v / 256 ^ j % 256 := by
  have h : a ≤ a + j ∧ a + j < a + 4 := ⟨by omega, by omega⟩
  simp only [load8, store32, if_pos h, Nat.add_sub_cancel_left, Nat.mod_mod]

theorem load32_store32_same (m : Memory) (a v : Nat) :
    load32 (store32 m a v) a = v % 4294967296 := by
  have e0 := store32_load8_inside m a v 0 (by decide)
  have e1 := store32_load8_inside m a v 1 (by decide)
  have e2 := store32_load8_inside m a v 2 (by decide)
  have e3 := store32_load8_inside m a v 3 (by decide)
  simp only [Nat.add_zero] at e0
  unfold load32
  rw [e0, e1, e2, e3]
  norm_num
  omega

theorem load32_congr (m1 m2 : Memory) (b : Nat)
    (h : ∀ x, b ≤ x ∧ x < b + 4 → m1.bytes x = m2.bytes x) : load32 m1 b = load32 m2 b := by
  unfold load32 load8
  rw [h b ⟨by omega, by omega⟩, h (b + 1) ⟨by omega, by omega⟩, h (b + 2) ⟨by omega, by omega⟩,
    h (b + 3) ⟨by omega, by omega⟩]

theorem store64_load8_inside (m : Memory) (a v j : Nat) (hj : j < 8) :
    load8 (store64 m a v) (a + j) = v / 256 ^ j % 256 := by
  have h : a ≤ a + j ∧ a + j < a + 8 := ⟨by omega, by omega⟩
  simp only [load8, store64, if_pos h, Nat.add_sub_cancel_left, Nat.mod_mod]

theorem load64_store64_same (m : Memory) (a v : Nat) :
    load64 (store64 m a v) a = v % U64 := by
  have e0 := store64_load8_inside m a v 0 (by decide)
  have e1 := store64_load8_inside m a v 1 (by decide)
  have e2 := store64_load8_inside m a v 2 (by decide)
  have e3 := store64_load8_inside m a v 3 (by decide)
  have e4 := store64_load8_inside m a v 4 (by decide)
  have e5 := store64_load8_inside m a v 5 (by decide)
  have e6 := store64_load8_inside m a v 6 (by decide)
  have e7 := store64_load8_inside m a v 7 (by decide)
  simp only [Nat.add_zero] at e0
  unfold load64 U64
  rw [e0, e1, e2, e3, e4, e5, e6, e7]
  norm_num
  omega

theorem load64_congr (m1 m2 : Memory) (b : Nat)
    (h : ∀ x, b ≤ x ∧ x < b + 8 → m1.bytes x = m2.bytes x) : load64 m1 b = load64 m2 b := by
  unfold load64 load8
  rw [h b ⟨by omega, by omega⟩, h (b + 1) ⟨by omega, by omega⟩, h (b + 2) ⟨by omega, by omega⟩,
    h (b + 3) ⟨by omega, by omega⟩, h (b + 4) ⟨by omega, by omega⟩,
    h (b + 5) ⟨by omega, by omega⟩, h (b + 6) ⟨by omega, by omega⟩,
    h (b + 7) ⟨by omega, by omega⟩]

theorem load64_store64_other (m : Memory) (a v b : Nat) (h : b + 8 ≤ a ∨ a + 8 ≤ b) :
    load64 (store64 m a v) b = load64 m b := by
  apply load64_congr
  intro x hx
  apply store64_bytes_outside
  omega

/-! ## Dirtying a buffer -/

/-- The first `n` iterations of the loop of `dirty_buffer_intensive`. -/
theorem dirty_loop_spec (buffer : Nat) (m : Memory) (n : Nat) :
    (∀ i, i < n →
      load64 ((List.range n).foldl
        (fun mem i =>
          store64 mem (buffer + sizeof_unsigned_long_long * i)
            ((load64 mem (buffer + sizeof_unsigned_long_long * i) + 1) % U64)) m)
        (buffer + 8 * i) = (load64 m (buffer + 8 * i) + 1) % U64)
    ∧ (∀ x, ¬(buffer ≤ x ∧ x < buffer + 8 * n) →
      ((List.range n).foldl
        (fun mem i =>
          store64 mem (buffer + sizeof_unsigned_long_long * i)
            ((load64 mem (buffer + sizeof_unsigned_long_long * i) + 1) % U64)) m).bytes x
        = m.bytes x) := by
  induction n with
  | zero => simp
  | succ n ih =>
    obtain ⟨ih1, ih2⟩ := ih
    rw [List.range_succ, List.foldl_append]
    simp only [List.foldl_cons, List.foldl_nil]
    have hs : sizeof_unsigned_long_long = 8 := rfl
    rw [hs] at ih1 ih2 ⊢
    refine ⟨?_, ?_⟩
    · intro i hi
      by_cases hin : i = n
      · subst hin
        rw [load64_store64_same, Nat.mod_mod]
        congr 2
        apply load64_congr
        intro x hx
        apply ih2
        omega
      · rw [load64_store64_other _ _ _ _ (by omega)]
        exact ih1 i (by omega)
    · intro x hx
      rw [store64_bytes_outside _ _ _ _ (by omega)]
      exact ih2 x (by omega)

theorem dirty_word_count : BUFFER_SIZE / sizeof_unsigned_long_long = 512 := by decide

theorem dirty_word (buffer : Nat) (m : Memory) (i : Nat) (hi : i < 512) :
    load64 (dirty_buffer_intensive buffer m) (buffer + 8 * i)
      = (load64 m (buffer + 8 * i) + 1) % U64 := by
  unfold dirty_buffer_intensive
  rw [dirty_word_count]
  exact (dirty_loop_spec buffer m 512).1 i hi

theorem dirty_bytes_outside (buffer : Nat) (m : Memory) (x : Nat)
    (hx : ¬(buffer ≤ x ∧ x < buffer + 4096)) :
    (dirty_buffer_intensive buffer m).bytes x = m.bytes x := by
  unfold dirty_buffer_intensive
  rw [dirty_word_count]
  exact (dirty_loop_spec buffer m 512).2 x hx

theorem dirty_iterate_word (buffer : Nat) (m : Memory) (i : Nat) (hi : i < 512) (K : Nat) :
    load64 ((dirty_buffer_intensive buffer)^[K] m) (buffer + 8 * i)
      = (load64 m (buffer + 8 * i) + K) % U64 := by
  induction K with
  | zero =>
    simp only [Function.iterate_zero, id_eq, Nat.add_zero]
    exact (Nat.mod_eq_of_lt (load64_lt m _)).symm
  | succ K ih =>
    rw [Function.iterate_succ_apply', dirty_word buffer _ i hi, ih]
    unfold U64
    omega

theorem dirty_iterate_outside (buffer : Nat) (m : Memory) (K : Nat) :
    ∀ x, ¬(buffer ≤ x ∧ x < buffer + 4096) →
      ((dirty_buffer_intensive buffer)^[K] m).bytes x = m.bytes x := by
  induction K with
  | zero => simp
  | succ K ih =>
    rw [Function.iterate_succ_apply']
    intro x hx
    rw [dirty_bytes_outside buffer _ x hx]
    exact ih x hx

/-- C2. `dirty_buffer_intensive` adds one, modulo 2^64, to each of the 512 64-bit words of the
4096-byte buffer and changes no byte outside the buffer; `K` consecutive calls leave every
word at its original value plus `K` modulo 2^64, and likewise change nothing else. -/
theorem dirty_buffer_intensive_increments (m : Memory) (buffer K i : Nat) (hi : i < 512) :
    load64 (dirty_buffer_intensive buffer m) (buffer + 8 * i)
        = (load64 m (buffer + 8 * i) + 1) % 2 ^ 64
    ∧ load64 ((dirty_buffer_intensive buffer)^[K] m) (buffer + 8 * i)
        = (load64 m (buffer + 8 * i) + K) % 2 ^ 64
    ∧ (∀ x, ¬(buffer ≤ x ∧ x < buffer + 4096) →
        (dirty_buffer_intensive buffer m).bytes x = m.bytes x
        ∧ ((dirty_buffer_intensive buffer)^[K] m).bytes x = m.bytes x) := by
  have e : (2 : Nat) ^ 64 = U64 := by decide
  rw [e]
  exact ⟨dirty_word buffer m i hi, dirty_iterate_word buffer m i hi K,
    fun x hx => ⟨dirty_bytes_outside buffer m x hx, dirty_iterate_outside buffer m K x hx⟩⟩

/-- C2, at a buffer at address 4096 whose word 3 holds 2^64 - 1, dirtied twice. -/
theorem dirty_buffer_intensive_increments_witness :
    (3 < 512)
    ∧ load64 (dirty_buffer_intensive 4096 (store64 stale_memory (4096 + 8 * 3) (2 ^ 64 - 1)))
        (4096 + 8 * 3)
      = (load64 (store64 stale_memory (4096 + 8 * 3) (2 ^ 64 - 1)) (4096 + 8 * 3) + 1) % 2 ^ 64
    ∧ load64 ((dirty_buffer_intensive 4096)^[2]
          (store64 stale_memory (4096 + 8 * 3) (2 ^ 64 - 1))) (4096 + 8 * 3)
      = (load64 (store64 stale_memory (4096 + 8 * 3) (2 ^ 64 - 1)) (4096 + 8 * 3) + 2) % 2 ^ 64 :=
  ⟨by decide,
    (dirty_buffer_intensive_increments (store64 stale_memory (4096 + 8 * 3) (2 ^ 64 - 1))
      4096 2 3 (by decide)).1,
    (dirty_buffer_intensive_increments (store64 stale_memory (4096 + 8 * 3) (2 ^ 64 - 1))
      4096 2 3 (by decide)).2.1⟩

/-! ## Buffer selection -/

theorem and_mask (n : Nat) (hn : n < 4294967296) : n &&& 4294963200 = n / 4096 * 4096 := by
  apply Nat.eq_of_testBit_eq
  intro i
  have h1 : (4294963200 : Nat) = 2 ^ 12 * (2 ^ 20 - 1) := by norm_num
  have h2 : n / 4096 * 4096 = 2 ^ 12 * (n >>> 12) := by
    rw [Nat.shiftRight_eq_div_pow]; norm_num [Nat.mul_comm]
  rw [Nat.testBit_and, h1, h2, Nat.testBit_mul_pow_two, Nat.testBit_mul_pow_two,
    Nat.testBit_two_pow_sub_one, Nat.testBit_shiftRight]
  by_cases hi : 12 ≤ i
  · have e : 12 + (i - 12) = i := by omega
    by_cases hj : i - 12 < 20
    · simp [hi, hj, e]
    · have hlt : n < 2 ^ i := by
        calc n < 2 ^ 32 := by simpa using hn
          _ ≤ 2 ^ i := Nat.pow_le_pow_right (by norm_num) (by omega)
      simp [hi, hj, e, Nat.testBit_lt_two_pow hlt]
  · simp [hi]

theorem toInt32_natCast (n : Nat) :
    toInt32 (n : Int) = if n % 4294967296 < 2147483648 then ((n % 4294967296 : Nat) : Int)
      else ((n % 4294967296 : Nat) : Int) - 4294967296 := by
  unfold toInt32
  have h : ((n : Int) % 4294967296).toNat = n % 4294967296 := by omega
  rw [h]
  split_ifs <;> omega

theorem toInt32_of_lt (n : Nat) (h : n < 2147483648) : toInt32 (n : Int) = (n : Int) := by
  rw [toInt32_natCast]
  split_ifs <;> omega

theorem int_not_mask : int_not ((BUFFER_SIZE : Int) - 1) = -4096 := by decide

/-- Masking a non-negative `int` with `~(BUFFER_SIZE - 1)` rounds it down to a multiple of
4096. -/
theorem int_and_mask (n : Nat) (hn : n < 2147483648) :
    int_and (n : Int) (int_not ((BUFFER_SIZE : Int) - 1)) = ((n / 4096 * 4096 : Nat) : Int) := by
  rw [int_not_mask]
  have hb : bits32 (-4096) = 4294963200 := by decide
  have hx : bits32 (n : Int) = n := by
    unfold bits32
    omega
  unfold int_and
  rw [hb, hx, and_mask n (by omega)]
  exact toInt32_of_lt _ (by omega)

theorem tmod_of_nat (n : Nat) (s : Int) (hs : s ≠ 0) :
    ∃ x : Nat, Int.tmod (n : Int) s = (x : Int) ∧ x ≤ n ∧ (x : Int) < |s| := by
  have key : ∀ t : Int, 0 < t →
      ∃ x : Nat, Int.tmod (n : Int) t = (x : Int) ∧ x ≤ n ∧ (x : Int) < t := by
    intro t ht
    obtain ⟨k, rfl⟩ := Int.eq_ofNat_of_zero_le (le_of_lt ht)
    have hk : 0 < k := by omega
    refine ⟨n % k, (Int.ofNat_tmod n k).symm, Nat.mod_le n k, ?_⟩
    exact_mod_cast Nat.mod_lt n hk
  rcases lt_or_gt_of_ne hs with hneg | hpos
  · obtain ⟨x, hx1, hx2, hx3⟩ := key (-s) (by omega)
    rw [Int.tmod_neg] at hx1
    exact ⟨x, hx1, hx2, by rw [abs_of_neg hneg]; exact hx3⟩
  · obtain ⟨x, hx1, hx2, hx3⟩ := key s hpos
    exact ⟨x, hx1, hx2, by rw [abs_of_pos hpos]; exact hx3⟩

/-- Wherever the conversion of the pool size to `int` is not zero, every draw is defined, a
multiple of 4096, and inside the pool. -/
theorem draw_offset_in_pool (r : Int) (pool_size : Nat) (hr0 : 0 ≤ r) (hr1 : r ≤ RAND_MAX)
    (hmul : pool_size % 4096 = 0) (hnz : toInt32 (pool_size : Int) ≠ 0) :
    ∃ off : Nat, draw_offset r pool_size = some (off : Int) ∧ off % 4096 = 0 ∧ off < pool_size := by
  obtain ⟨n, rfl⟩ := Int.eq_ofNat_of_zero_le hr0
  have hn : n < 2147483648 := by unfold RAND_MAX at hr1; omega
  obtain ⟨x, hx1, hx2, hx3⟩ := tmod_of_nat n _ hnz
  have habs : c_abs (n : Int) = n := by unfold c_abs; simp
  refine ⟨x / 4096 * 4096, ?_, ?_, ?_⟩
  · unfold draw_offset c_rem
    rw [habs, if_neg hnz, Option.map_some', hx1, int_and_mask x (by omega)]
  · exact Nat.mul_mod_left _ _
  · have hle : x / 4096 * 4096 ≤ x := Nat.div_mul_le_self x 4096
    have hxp : x < pool_size := by
      rw [toInt32_natCast] at hx3 hnz
      split_ifs at hx3 hnz with hlt
      · rw [abs_of_nonneg (by omega)] at hx3
        omega
      · omega
    omega

/-- A pool whose size is a multiple of 2^32 bytes makes every draw divide by zero. -/
theorem draw_offset_undefined (r : Int) (pool_size : Nat) (h : pool_size % 4294967296 = 0) :
    draw_offset r pool_size = none := by
  have hz : toInt32 (pool_size : Int) = 0 := by
    rw [toInt32_natCast]
    split_ifs <;> omega
  unfold draw_offset c_rem
  rw [hz]
  rfl

/-- C1. With a pool of 4 GiB, which `main` accepts as `pool_size_kb = 4194304` and which is a
positive multiple of 4096, `(int)pool_size` is 0 and the offset computation of
`contend_for_buffer` divides by zero for every drawn value. -/
theorem draw_offset_divides_by_zero :
    parse_args ["stress_hitm".toList, "4".toList, "4194304".toList, "10".toList, "1".toList]
      = Parsed.accepted
          { num_threads := 4, pool_size_kb := 4194304, pool_size_bytes := 4294967296,
            test_duration_sec := 10, is_shared := 1, matrix_size := 0 }
    ∧ 4294967296 % 4096 = 0
    ∧ toInt32 4294967296 = 0
    ∧ ∀ r : Int, draw_offset r 4294967296 = none :=
  ⟨by decide, by decide, by decide, fun r => draw_offset_undefined r 4294967296 (by decide)⟩

/-! ## Acquisition -/

theorem draw_offset_defined (r : Int) (pool_size : Nat) (hnz : toInt32 (pool_size : Int) ≠ 0) :
    ∃ off, draw_offset r pool_size = some off := by
  unfold draw_offset c_rem
  rw [if_neg hnz]
  exact ⟨_, rfl⟩

theorem contend_for_buffer_acquired (rand_r : Nat → Int × Nat) (pool : Nat) (wi : work_instance)
    (rest : List TryLock) (dp : thread_data) (m : Memory) (off : Int)
    (h : draw_offset (rand_r dp.seed).1 wi.pool_size_bytes = some off) :
    contend_for_buffer rand_r pool wi (TryLock.acquired :: rest) dp m
      = Contend.returned ((pool : Int) + off).toNat
          { seed := (rand_r dp.seed).2
            total_contention_attempts := (dp.total_contention_attempts + 1) % U64
            locked_by_others := dp.locked_by_others }
          (store64 (spin_acquire m (((pool : Int) + off).toNat + offsetof_lock))
            (((pool : Int) + off).toNat + offsetof_thread_id) wi.tid) := by
  rw [contend_for_buffer, h]

theorem contend_for_buffer_busy (rand_r : Nat → Int × Nat) (pool : Nat) (wi : work_instance)
    (rest : List TryLock) (dp : thread_data) (m : Memory) (off : Int)
    (h : draw_offset (rand_r dp.seed).1 wi.pool_size_bytes = some off) :
    contend_for_buffer rand_r pool wi (TryLock.busy :: rest) dp m
      = contend_for_buffer rand_r pool wi rest
          { seed := (rand_r dp.seed).2
            total_contention_attempts := (dp.total_contention_attempts + 1) % U64
            locked_by_others := (dp.locked_by_others + 1) % U64 } m := by
  rw [contend_for_buffer, h]

theorem contend_for_buffer_spec (rand_r : Nat → Int × Nat) (pool : Nat) (wi : work_instance)
    (m : Memory) (hnz : toInt32 (wi.pool_size_bytes : Int) ≠ 0) (f : Nat) :
    ∀ dp : thread_data, dp.locked_by_others < U64 → ∃ off dp1,
      draw_offset (rand_r (seed_after rand_r f dp.seed)).1 wi.pool_size_bytes = some off
      ∧ contend_for_buffer rand_r pool wi
          (List.replicate f TryLock.busy ++ [TryLock.acquired]) dp m
        = Contend.returned ((pool : Int) + off).toNat dp1
            (store64 (spin_acquire m (((pool : Int) + off).toNat + offsetof_lock))
              (((pool : Int) + off).toNat + offsetof_thread_id) wi.tid)
      ∧ dp1.total_contention_attempts = (dp.total_contention_attempts + f + 1) % U64
      ∧ dp1.locked_by_others = (dp.locked_by_others + f) % U64
      ∧ dp1.seed = seed_after rand_r (f + 1) dp.seed := by
  induction f with
  | zero =>
    intro dp hdp
    obtain ⟨off, hoff⟩ := draw_offset_defined (rand_r dp.seed).1 wi.pool_size_bytes hnz
    refine ⟨off, _, hoff, contend_for_buffer_acquired rand_r pool wi [] dp m off hoff,
      ?_, ?_, ?_⟩
    · rfl
    · exact (Nat.mod_eq_of_lt hdp).symm
    · rfl
  | succ f ih =>
    intro dp _
    obtain ⟨off0, hoff0⟩ := draw_offset_defined (rand_r dp.seed).1 wi.pool_size_bytes hnz
    obtain ⟨off, dp1, h1, h2, h3, h4, h5⟩ := ih
      { seed := (rand_r dp.seed).2
        total_contention_attempts := (dp.total_contention_attempts + 1) % U64
        locked_by_others := ((dp.locked_by_others) + 1) % U64 }
      (Nat.mod_lt _ (by decide))
    refine ⟨off, dp1, ?_, ?_, ?_, ?_, ?_⟩
    · rw [seed_after, Function.iterate_succ_apply]
      exact h1
    · rw [List.replicate_succ, List.cons_append,
        contend_for_buffer_busy rand_r pool wi _ dp m off0 hoff0]
      exact h2
    · rw [h3]; simp only; unfold U64; omega
    · rw [h4]; simp only; unfold U64; omega
    · rw [h5, seed_after, seed_after, Function.iterate_succ_apply, Function.iterate_succ_apply,
        Function.iterate_succ_apply]

theorem contend_for_buffer_undefined (rand_r : Nat → Int × Nat) (pool : Nat)
    (wi : work_instance) (outcome : TryLock) (rest : List TryLock) (dp : thread_data)
    (m : Memory) (h : draw_offset (rand_r dp.seed).1 wi.pool_size_bytes = none) :
    contend_for_buffer rand_r pool wi (outcome :: rest) dp m = Contend.undefined := by
  rw [contend_for_buffer, h]

/-- Whenever `contend_for_buffer` returns, the memory it leaves is the one it was given with
the lock of the returned buffer taken and the owner tag set to the caller's identifier. -/
theorem contend_for_buffer_memory (rand_r : Nat → Int × Nat) (pool : Nat) (wi : work_instance)
    (m : Memory) (outcomes : List TryLock) :
    ∀ (dp : thread_data) (buffer : Nat) (dp1 : thread_data) (m1 : Memory),
      contend_for_buffer rand_r pool wi outcomes dp m = Contend.returned buffer dp1 m1 →
      m1 = store64 (spin_acquire m (buffer + offsetof_lock)) (buffer + offsetof_thread_id)
        wi.tid := by
  induction outcomes with
  | nil =>
    intro dp buffer dp1 m1 h
    rw [contend_for_buffer] at h
    cases h
  | cons outcome rest ih =>
    intro dp buffer dp1 m1 h
    cases hd : draw_offset (rand_r dp.seed).1 wi.pool_size_bytes with
    | none =>
      rw [contend_for_buffer_undefined rand_r pool wi outcome rest dp m hd] at h
      cases h
    | some off =>
      cases outcome with
      | busy =>
        rw [contend_for_buffer_busy rand_r pool wi rest dp m off hd] at h
        exact ih _ buffer dp1 m1 h
      | acquired =>
        rw [contend_for_buffer_acquired rand_r pool wi rest dp m off hd] at h
        cases h
        rfl

theorem owner_tag_store (m : Memory) (buffer tid : Nat) :
    owner_tag (store64 m (buffer + offsetof_thread_id) tid) buffer = tid % U64 :=
  load64_store64_same m _ tid

theorem owner_tag_dirty (m : Memory) (buffer : Nat) :
    owner_tag (dirty_buffer_intensive buffer m) buffer = (owner_tag m buffer + 1) % U64 := by
  have h : offsetof_thread_id = 8 * 1 := by decide
  unfold owner_tag
  rw [h]
  exact dirty_word buffer m 1 (by decide)

/-- Whatever the draws and lock outcomes, a call that returns leaves the caller's identifier
in the owner tag, and the dirtying step that follows replaces it by its successor. -/
theorem acquire_and_dirty_owner (rand_r : Nat → Int × Nat) (pool : Nat) (wi : work_instance)
    (outcomes : List TryLock) (dp : thread_data) (m : Memory) :
    (contend_for_buffer rand_r pool wi outcomes dp m).owner
        = (contend_for_buffer rand_r pool wi outcomes dp m).buffer.map (fun _ => wi.tid % U64)
    ∧ (acquire_and_dirty rand_r pool wi outcomes dp m).owner
        = (contend_for_buffer rand_r pool wi outcomes dp m).buffer.map
            (fun _ => (wi.tid % U64 + 1) % U64) := by
  unfold acquire_and_dirty
  cases h : contend_for_buffer rand_r pool wi outcomes dp m with
  | undefined => exact ⟨rfl, rfl⟩
  | spinning dp1 => exact ⟨rfl, rfl⟩
  | returned buffer dp1 m1 =>
    have hm := contend_for_buffer_memory rand_r pool wi m outcomes dp buffer dp1 m1 h
    subst hm
    simp only [Contend.owner, Contend.buffer, Option.map_some', owner_tag_dirty, owner_tag_store]
    exact ⟨trivial, trivial⟩

/-- C9 (amended). For a pool size whose conversion to `int` is not zero and 64-bit counters,
a call whose lock attempts fail `f` times and then succeed returns the buffer of the last
draw with its lock word set to held, `total_contention_attempts` becomes its old value plus `f + 1`
modulo 2^64 and `locked_by_others` its old value plus `f` modulo 2^64; when the attempt
counter does not wrap, `locked_by_others ≤ total_contention_attempts` is preserved. -/
theorem contend_for_buffer_counts (rand_r : Nat → Int × Nat) (pool : Nat) (wi : work_instance)
    (f : Nat) (dp : thread_data) (m : Memory)
    (hnz : toInt32 (wi.pool_size_bytes : Int) ≠ 0) (hdp : dp.locked_by_others < 2 ^ 64) :
    (contend_for_buffer rand_r pool wi
        (List.replicate f TryLock.busy ++ [TryLock.acquired]) dp m).buffer
      = (draw_offset (rand_r (seed_after rand_r f dp.seed)).1 wi.pool_size_bytes).map
          (fun off => ((pool : Int) + off).toNat)
    ∧ (contend_for_buffer rand_r pool wi
        (List.replicate f TryLock.busy ++ [TryLock.acquired]) dp m).buffer ≠ none
    ∧ (contend_for_buffer rand_r pool wi
        (List.replicate f TryLock.busy ++ [TryLock.acquired]) dp m).lock
      = some SPIN_HELD
    ∧ (contend_for_buffer rand_r pool wi
        (List.replicate f TryLock.busy ++ [TryLock.acquired]) dp m).counters
      = some ((dp.total_contention_attempts + f + 1) % 2 ^ 64,
          (dp.locked_by_others + f) % 2 ^ 64)
    ∧ (dp.locked_by_others ≤ dp.total_contention_attempts →
        dp.total_contention_attempts + f + 1 < 2 ^ 64 →
        (dp.locked_by_others + f) % 2 ^ 64 ≤ (dp.total_contention_attempts + f + 1) % 2 ^ 64) := by
  have e : (2 : Nat) ^ 64 = U64 := by decide
  rw [e] at hdp ⊢
  obtain ⟨off, dp1, h1, h2, h3, h4, _⟩ := contend_for_buffer_spec rand_r pool wi m hnz f dp hdp
  rw [h2, h1]
  refine ⟨rfl, by simp [Contend.buffer], ?_, ?_, ?_⟩
  · simp only [Contend.lock, spin_acquire]
    congr 1
    rw [load32_congr _ (store32 m (((pool : Int) + off).toNat + offsetof_lock) SPIN_HELD)]
    · exact load32_store32_same _ _ _
    · intro x hx
      apply store64_bytes_outside
      have h8 : offsetof_thread_id = 8 := by decide
      have h0 : offsetof_lock = 0 := rfl
      omega
  · simp only [Contend.counters, h3, h4]
  · intro hle hlt
    rw [Nat.mod_eq_of_lt hlt, Nat.mod_eq_of_lt (by omega)]
    omega

/-- C9 (amended), at two failed attempts followed by a success on a two-buffer pool. -/
theorem contend_for_buffer_counts_witness :
    toInt32 (((sample_worker 7 8192).pool_size_bytes : Nat) : Int) ≠ 0
    ∧ (0 : Nat) < 2 ^ 64
    ∧ (contend_for_buffer sample_rand_r 4096 (sample_worker 7 8192)
        (List.replicate 2 TryLock.busy ++ [TryLock.acquired]) ⟨5000, 0, 0⟩ stale_memory).counters
      = some ((0 + 2 + 1) % 2 ^ 64, (0 + 2) % 2 ^ 64) :=
  ⟨by decide, by decide,
    (contend_for_buffer_counts sample_rand_r 4096 (sample_worker 7 8192) 2 ⟨5000, 0, 0⟩
      stale_memory (by decide) (by decide)).2.2.2.1⟩

/-- C9 as stated fails when the attempt counter is at its maximum: one successful draw takes
`total_contention_attempts` from 2^64 - 1 to 0 instead of adding one, and leaves it below
`locked_by_others`, which it was not before the call. -/
theorem contend_for_buffer_counter_wraps :
    (contend_for_buffer sample_rand_r 4096 (sample_worker 7 8192) [TryLock.acquired]
        ⟨5000, 2 ^ 64 - 1, 1⟩ stale_memory).counters = some (0, 1)
    ∧ (1 : Nat) ≤ 2 ^ 64 - 1
    ∧ (0 : Nat) ≠ (2 ^ 64 - 1) + 0 + 1
    ∧ ¬ ((1 : Nat) ≤ 0) := by
  decide

set_option maxRecDepth 100000 in
/-- C6. A worker with thread identifier 7 acquires the buffer at offset 4096 of an initialised
two-buffer pool: `contend_for_buffer` leaves the owner tag at 7, and the dirtying step that
`run` performs next changes it to 8, because the word it increments at offset 8 of the buffer
is the header member `thread_id`. -/
theorem dirty_changes_owner_tag :
    (init_shared_buffer_pool 4096 8192 stale_memory).map
        (fun m =>
          ((contend_for_buffer sample_rand_r 4096 (sample_worker 7 8192) [TryLock.acquired]
              ⟨5000, 0, 0⟩ m).buffer,
            (contend_for_buffer sample_rand_r 4096 (sample_worker 7 8192) [TryLock.acquired]
              ⟨5000, 0, 0⟩ m).owner,
            (acquire_and_dirty sample_rand_r 4096 (sample_worker 7 8192) [TryLock.acquired]
              ⟨5000, 0, 0⟩ m).owner))
      = some (some 8192, some 7, some 8)
    ∧ offsetof_thread_id = 8 := by
  decide

/-! ## Pool initialisation -/

theorem init_loop_terminates (fuel : Nat) :
    ∀ (p limit : Nat) (m : Memory), limit ≤ p + BUFFER_SIZE * fuel →
      ∃ m1, init_shared_buffer_pool_loop fuel p limit m = some m1 := by
  induction fuel with
  | zero =>
    intro p limit m h
    have hp : ¬ p < limit := by omega
    exact ⟨m, by rw [init_shared_buffer_pool_loop, if_neg hp]⟩
  | succ fuel ih =>
    intro p limit m h
    rw [init_shared_buffer_pool_loop]
    by_cases hp : p < limit
    · rw [if_pos hp]
      exact ih _ _ _ (by rw [Nat.mul_succ] at h; omega)
    · rw [if_neg hp]
      exact ⟨m, rfl⟩

/-- The loop of `init_shared_buffer_pool` always ends within its budget. -/
theorem init_shared_buffer_pool_terminates (pool pool_size : Nat) (m : Memory) :
    ∃ m1, init_shared_buffer_pool pool pool_size m = some m1 := by
  unfold init_shared_buffer_pool
  apply init_loop_terminates
  have h := Nat.lt_div_mul_add (a := pool_size) (b := BUFFER_SIZE) (by decide)
  rw [Nat.mul_succ, Nat.mul_comm]
  omega

theorem init_loop_eq_fold (n : Nat) :
    ∀ (fuel p : Nat) (m : Memory), n ≤ fuel →
      init_shared_buffer_pool_loop fuel p (p + BUFFER_SIZE * n) m
        = some ((List.range n).foldl
            (fun mem i => initialize_buffer (p + BUFFER_SIZE * i) mem) m) := by
  induction n with
  | zero =>
    intro fuel p m _
    have hp : ¬ p < p + BUFFER_SIZE * 0 := by omega
    cases fuel with
    | zero => rw [init_shared_buffer_pool_loop, if_neg hp]; rfl
    | succ fuel => rw [init_shared_buffer_pool_loop, if_neg hp]; rfl
  | succ n ih =>
    intro fuel p m hfuel
    obtain ⟨fuel1, rfl⟩ : ∃ k, fuel = k + 1 := ⟨fuel - 1, by omega⟩
    have hp : p < p + BUFFER_SIZE * (n + 1) := by
      have : 0 < BUFFER_SIZE := by decide
      rw [Nat.mul_succ]; omega
    have hl : p + BUFFER_SIZE * (n + 1) = (p + BUFFER_SIZE) + BUFFER_SIZE * n := by
      rw [Nat.mul_succ]; omega
    rw [init_shared_buffer_pool_loop, if_pos hp, hl, ih fuel1 (p + BUFFER_SIZE) _ (by omega),
      List.range_succ_eq_map, List.foldl_cons, List.foldl_map]
    congr 1
    have hf : (fun mem i => initialize_buffer (p + BUFFER_SIZE + BUFFER_SIZE * i) mem)
        = (fun (mem : Memory) (i : Nat) => initialize_buffer (p + BUFFER_SIZE * i.succ) mem) := by
      funext mem i
      rw [Nat.mul_succ]
      congr 1
      omega
    rw [hf, Nat.mul_zero, Nat.add_zero]

/-- For a pool of `n` whole buffers the loop initialises the buffers at offsets
0, 4096, ..., 4096 * (n - 1), in this order, and nothing else. -/
theorem init_shared_buffer_pool_eq_fold (pool n : Nat) (m : Memory) :
    init_shared_buffer_pool pool (BUFFER_SIZE * n) m
      = some ((List.range n).foldl
          (fun mem i => initialize_buffer (pool + BUFFER_SIZE * i) mem) m) := by
  unfold init_shared_buffer_pool
  apply init_loop_eq_fold
  rw [Nat.mul_div_cancel_left n (by decide : 0 < BUFFER_SIZE)]
  omega

theorem sentinel_byte (j : Nat) (hj : j < 8) : 18446744073709551615 / 256 ^ j % 256 = 255 := by
  interval_cases j <;> norm_num

theorem initialize_buffer_bytes (buffer : Nat) (m : Memory) (x : Nat) :
    (initialize_buffer buffer m).bytes x
      = if buffer + 128 ≤ x ∧ x < buffer + 4096 then 0
        else if buffer ≤ x ∧ x < buffer + 4 then 1 / 256 ^ (x - buffer) % 256
        else if buffer + 8 ≤ x ∧ x < buffer + 16 then 255
        else m.bytes x := by
  have h1 : sizeof_buffer_header = 128 := by decide
  have h2 : offsetof_thread_id = 8 := by decide
  have h3 : BUFFER_SIZE = 4096 := rfl
  have h4 : INVALID_PTHREAD_ID = 18446744073709551615 := by decide
  have h5 : offsetof_lock = 0 := rfl
  have h6 : SPIN_FREE = 1 := rfl
  simp only [initialize_buffer, memset, pthread_spin_init, store32, store64, h1, h2, h3, h4, h5,
    h6, Nat.add_zero]
  split_ifs <;> first | rfl | omega | exact sentinel_byte _ (by omega)

/-- What the initialisation of `n` buffers at `pool` does to every byte: in each buffer, bytes
0..3 (the lock) become the bytes of the value 1, bytes 8..15 (the owner) become 0xFF, bytes
128..4095 become 0; bytes 4..7 and 16..127 of each buffer, and everything outside the pool,
are left as they were. -/
theorem init_fold_effect (pool n : Nat) (m : Memory) (x : Nat) :
    ((List.range n).foldl
        (fun mem i => initialize_buffer (pool + BUFFER_SIZE * i) mem) m).bytes x
      = if pool ≤ x ∧ x < pool + 4096 * n then
          (if 128 ≤ (x - pool) % 4096 then 0
           else if (x - pool) % 4096 < 4 then 1 / 256 ^ ((x - pool) % 4096) % 256
           else if 8 ≤ (x - pool) % 4096 ∧ (x - pool) % 4096 < 16 then 255
           else m.bytes x)
        else m.bytes x := by
  have hB : BUFFER_SIZE = 4096 := rfl
  induction n with
  | zero =>
    rw [if_neg (by omega)]
    rfl
  | succ n ih =>
    rw [List.range_succ, List.foldl_append]
    simp only [List.foldl_cons, List.foldl_nil]
    rw [initialize_buffer_bytes, ih, hB]
    by_cases hin : pool + 4096 * n ≤ x ∧ x < pool + 4096 * (n + 1)
    · have hmod : (x - pool) % 4096 = x - (pool + 4096 * n) := by omega
      rw [hmod]
      split_ifs <;> first | rfl | omega
    · split_ifs <;> first | rfl | omega

/-- Every buffer of a pool of `n` whole buffers is left with a free lock, the sentinel as
owner and zeroes from offset 128 on, while the bytes at offsets 16..127 of each buffer and
everything outside the pool keep the value they had. -/
theorem init_shared_buffer_pool_buffers (pool n : Nat) (m : Memory) :
    ∃ m1, init_shared_buffer_pool pool (BUFFER_SIZE * n) m = some m1
      ∧ (∀ i, i < n →
          load32 m1 (pool + 4096 * i + offsetof_lock) = SPIN_FREE
          ∧ owner_tag m1 (pool + 4096 * i) = INVALID_PTHREAD_ID
          ∧ (∀ o, 128 ≤ o → o < 4096 → m1.bytes (pool + 4096 * i + o) = 0)
          ∧ (∀ o, 16 ≤ o → o < 128 →
              m1.bytes (pool + 4096 * i + o) = m.bytes (pool + 4096 * i + o)))
      ∧ (∀ x, x < pool ∨ pool + 4096 * n ≤ x → m1.bytes x = m.bytes x) := by
  refine ⟨_, init_shared_buffer_pool_eq_fold pool n m, ?_, ?_⟩
  · intro i hi
    have hb : ∀ o, o < 4096 →
        ((List.range n).foldl
          (fun mem i => initialize_buffer (pool + BUFFER_SIZE * i) mem) m).bytes
            (pool + 4096 * i + o)
          = if 128 ≤ o then 0
            else if o < 4 then 1 / 256 ^ o % 256
            else if 8 ≤ o ∧ o < 16 then 255
            else m.bytes (pool + 4096 * i + o) := by
      intro o ho
      rw [init_fold_effect, if_pos (by constructor <;> omega)]
      have hmod : (pool + 4096 * i + o - pool) % 4096 = o := by omega
      rw [hmod]
    refine ⟨?_, ?_, ?_, ?_⟩
    · have h0 := hb 0 (by omega)
      have h1 := hb 1 (by omega)
      have h2 := hb 2 (by omega)
      have h3 := hb 3 (by omega)
      simp only [Nat.add_zero] at h0
      norm_num at h0 h1 h2 h3
      simp only [load32, load8, offsetof_lock, Nat.add_zero]
      rw [h0, h1, h2, h3]
      rfl
    · have e : ∀ j, j < 8 →
          ((List.range n).foldl
            (fun mem i => initialize_buffer (pool + BUFFER_SIZE * i) mem) m).bytes
              (pool + 4096 * i + 8 + j) = 255 := by
        intro j hj
        rw [Nat.add_assoc, hb (8 + j) (by omega), if_neg (by omega), if_neg (by omega),
          if_pos (by omega)]
      have e0 := e 0 (by omega)
      have e1 := e 1 (by omega)
      have e2 := e 2 (by omega)
      have e3 := e 3 (by omega)
      have e4 := e 4 (by omega)
      have e5 := e 5 (by omega)
      have e6 := e 6 (by omega)
      have e7 := e 7 (by omega)
      simp only [Nat.add_zero] at e0
      have h8 : offsetof_thread_id = 8 := by decide
      simp only [owner_tag, load64, load8, h8]
      rw [e0, e1, e2, e3, e4, e5, e6, e7]
      decide
    · intro o h1 h2
      rw [hb o h2, if_pos h1]
    · intro o h1 h2
      rw [hb o (by omega), if_neg (by omega), if_neg (by omega), if_neg (by omega)]
  · intro x hx
    rw [init_fold_effect, if_neg (by omega)]

set_option maxRecDepth 100000 in
/-- C3. `sizeof(struct buffer_header)` is 128, not 64: `lock` ends at offset 4, `thread_id` is
aligned to offset 8, the 52 padding bytes end at offset 68, and the 64-byte alignment of the
struct rounds that up to 128.  Initialising a one-buffer pool at address 4096 in memory
whose bytes all held 0xAA constructs the lock, sets the owner to the sentinel and zeroes the
bytes at offsets 128..4095, but the bytes at offsets 64..127 still hold 0xAA. -/
theorem init_shared_buffer_pool_leaves_padding :
    sizeof_buffer_header = 128
    ∧ offsetof_padding + padding_length = 68
    ∧ (init_shared_buffer_pool 4096 4096 stale_memory).map
        (fun m => (load32 m 4096, owner_tag m 4096, load8 m (4096 + 128), load8 m (4096 + 4095)))
      = some (SPIN_FREE, INVALID_PTHREAD_ID, 0, 0)
    ∧ (init_shared_buffer_pool 4096 4096 stale_memory).map
        (fun m => (load8 m (4096 + 64), load8 m (4096 + 127), load8 m 8192))
      = some (170, 170, 170) := by
  decide

/-! ## Creation of the shared pool -/

/-- A shared-mode call of `init` that finds no pool allocates and initialises one. -/
theorem init_creates (env : Env) (wi : work_instance) (g : Globals)
    (hc : env.calloc_ok = true) (hs : wi.is_shared ≠ 0)
    (hm : wi.pool_size_bytes % BUFFER_SIZE = 0) (hnull : g.shared_worker_buffer_pool = 0)
    (ha : env.aligned_alloc BUFFER_SIZE wi.pool_size_bytes ≠ 0) :
    ∃ wi1 mem,
      init_shared_buffer_pool (env.aligned_alloc BUFFER_SIZE wi.pool_size_bytes)
          wi.pool_size_bytes g.mem = some mem
      ∧ init env wi g = Except.ok (wi1,
          { shared_worker_buffer_pool := env.aligned_alloc BUFFER_SIZE wi.pool_size_bytes
            mem := mem
            pool_creations := g.pool_creations + 1 }) := by
  obtain ⟨mem, hmem⟩ := init_shared_buffer_pool_terminates
    (env.aligned_alloc BUFFER_SIZE wi.pool_size_bytes) wi.pool_size_bytes g.mem
  refine ⟨({ wi with
          worker_data := some
            { seed := ((wi.thread_id * env.now) % 4294967296).toNat
              total_contention_attempts := 0
              locked_by_others := 0 } } : work_instance), mem, hmem, ?_⟩
  unfold init
  simp only [hc, hs, hm, hnull, ha, hmem, ne_eq, not_false_eq_true, not_true_eq_false,
    if_true, if_false, Bool.true_eq_false]

/-- A shared-mode call of `init` that finds a pool leaves the globals as they are. -/
theorem init_keeps (env : Env) (wi : work_instance) (g : Globals)
    (hc : env.calloc_ok = true) (hs : wi.is_shared ≠ 0)
    (hm : wi.pool_size_bytes % BUFFER_SIZE = 0) (hpool : g.shared_worker_buffer_pool ≠ 0) :
    ∃ wi1, init env wi g = Except.ok (wi1, g) := by
  refine ⟨({ wi with
          worker_data := some
            { seed := ((wi.thread_id * env.now) % 4294967296).toNat
              total_contention_attempts := 0
              locked_by_others := 0 } } : work_instance), ?_⟩
  unfold init
  simp only [hc, hs, hm, hpool, ne_eq, not_false_eq_true, not_true_eq_false,
    if_true, if_false, Bool.true_eq_false]

theorem globals_after_nil (g : Globals) : globals_after [] g = some g := rfl

theorem globals_after_cons (env : Env) (wi wi1 : work_instance) (g g1 : Globals)
    (rest : List (Env × work_instance)) (h : init env wi g = Except.ok (wi1, g1)) :
    globals_after ((env, wi) :: rest) g = globals_after rest g1 := by
  unfold globals_after
  rw [init_all, h]
  simp only
  cases init_all rest g1 with
  | error f => rfl
  | ok r =>
    obtain ⟨wis, g2⟩ := r
    rfl

/-- Shared-mode calls of `init` that find a pool leave the globals as they are. -/
theorem globals_after_keeps (calls : List (Env × work_instance)) (g : Globals)
    (hpool : g.shared_worker_buffer_pool ≠ 0)
    (hvalid : ∀ c ∈ calls, c.1.calloc_ok = true ∧ c.2.is_shared ≠ 0
      ∧ c.2.pool_size_bytes % BUFFER_SIZE = 0) :
    globals_after calls g = some g := by
  induction calls with
  | nil => rfl
  | cons c rest ih =>
    obtain ⟨env, wi⟩ := c
    obtain ⟨hc, hs, hm⟩ := hvalid (env, wi) (List.mem_cons_self _ _)
    obtain ⟨wi1, h1⟩ := init_keeps env wi g hc hs hm hpool
    rw [globals_after_cons env wi wi1 g g rest h1]
    exact ih (fun c hcm => hvalid c (List.mem_cons_of_mem _ hcm))

/-- C4. Shared-mode workers call `init` one after another, as the initialisation mutex orders
them, starting with no pool and a creation counter of 0; every call has a pool size that is a
multiple of 4096 and finds its allocations succeeding.  Then the first call allocates the pool
and initialises it, the creation counter is 1, and after any number `k ≥ 1` of the calls the
globals (pool pointer, memory, counter) are exactly those left by the first call. -/
theorem shared_pool_created_once (env : Env) (wi : work_instance)
    (later : List (Env × work_instance)) (g : Globals)
    (hnull : g.shared_worker_buffer_pool = 0) (hzero : g.pool_creations = 0)
    (hvalid : ∀ c ∈ (env, wi) :: later, c.1.calloc_ok = true ∧ c.2.is_shared ≠ 0
      ∧ c.2.pool_size_bytes % BUFFER_SIZE = 0
      ∧ c.1.aligned_alloc BUFFER_SIZE c.2.pool_size_bytes ≠ 0) :
    ∃ g1,
      globals_after [(env, wi)] g = some g1
      ∧ g1.pool_creations = 1
      ∧ g1.shared_worker_buffer_pool = env.aligned_alloc BUFFER_SIZE wi.pool_size_bytes
      ∧ g1.shared_worker_buffer_pool ≠ 0
      ∧ init_shared_buffer_pool g1.shared_worker_buffer_pool wi.pool_size_bytes g.mem
          = some g1.mem
      ∧ ∀ k, 1 ≤ k → globals_after (((env, wi) :: later).take k) g = some g1 := by
  obtain ⟨hc, hs, hm, ha⟩ := hvalid (env, wi) (List.mem_cons_self _ _)
  obtain ⟨wi1, mem, hmem, hinit⟩ := init_creates env wi g hc hs hm hnull ha
  refine ⟨{ shared_worker_buffer_pool := env.aligned_alloc BUFFER_SIZE wi.pool_size_bytes
            mem := mem
            pool_creations := g.pool_creations + 1 }, ?_, ?_, rfl, ha, hmem, ?_⟩
  · rw [globals_after_cons env wi wi1 g _ [] hinit]
    rfl
  · simp only [hzero]
  · intro k hk
    obtain ⟨j, rfl⟩ : ∃ j, k = j + 1 := ⟨k - 1, by omega⟩
    rw [List.take_succ_cons, globals_after_cons env wi wi1 g _ _ hinit]
    apply globals_after_keeps
    · exact ha
    · intro c hcm
      obtain ⟨h1, h2, h3, _⟩ := hvalid c (List.mem_cons_of_mem _ (List.mem_of_mem_take hcm))
      exact ⟨h1, h2, h3⟩

/-- C4, at three workers sharing a 8192-byte pool that the allocator places at 4096. -/
theorem shared_pool_created_once_witness :
    (∀ c ∈ (sample_env, sample_worker 1 8192)
          :: [(sample_env, sample_worker 2 8192), (sample_env, sample_worker 3 8192)],
        c.1.calloc_ok = true ∧ c.2.is_shared ≠ 0 ∧ c.2.pool_size_bytes % BUFFER_SIZE = 0
        ∧ c.1.aligned_alloc BUFFER_SIZE c.2.pool_size_bytes ≠ 0)
    ∧ ∃ g1,
      globals_after [(sample_env, sample_worker 1 8192)] ⟨0, stale_memory, 0⟩ = some g1
      ∧ g1.pool_creations = 1
      ∧ g1.shared_worker_buffer_pool
          = sample_env.aligned_alloc BUFFER_SIZE (sample_worker 1 8192).pool_size_bytes
      ∧ g1.shared_worker_buffer_pool ≠ 0
      ∧ init_shared_buffer_pool g1.shared_worker_buffer_pool
          (sample_worker 1 8192).pool_size_bytes stale_memory = some g1.mem
      ∧ ∀ k, 1 ≤ k →
          globals_after (((sample_env, sample_worker 1 8192)
            :: [(sample_env, sample_worker 2 8192), (sample_env, sample_worker 3 8192)]).take k)
            ⟨0, stale_memory, 0⟩ = some g1 :=
  ⟨by decide,
    shared_pool_created_once sample_env (sample_worker 1 8192)
      [(sample_env, sample_worker 2 8192), (sample_env, sample_worker 3 8192)]
      ⟨0, stale_memory, 0⟩ rfl rfl (by decide)⟩

/-! ## The interleaved run loop -/

theorem log_of_append (w : Nat) (l1 l2 : List (Nat × LogEntry)) :
    log_of w (l1 ++ l2) = log_of w l1 ++ log_of w l2 := by
  simp [log_of, List.filter_append]

theorem log_of_single_same (w : Nat) (e : LogEntry) : log_of w [(w, e)] = [e] := by
  simp [log_of]

theorem log_of_single_other (w v : Nat) (e : LogEntry) (h : v ≠ w) : log_of w [(v, e)] = [] := by
  simp [log_of, h]

/-- An entry inside a log that was extended by one entry is the new entry or lies in the old
log. -/
theorem split_extended_log {α : Type} (log before after : List α) (x y : α)
    (h : log ++ [y] = before ++ x :: after) :
    (after = [] ∧ before = log ∧ x = y) ∨ (∃ rest, after = rest ++ [y] ∧ log = before ++ x :: rest) := by
  rcases List.eq_nil_or_concat after with hnil | ⟨rest, z, hrest⟩
  · subst hnil
    left
    have h2 := List.append_inj' h rfl
    exact ⟨rfl, h2.1.symm, by simpa using h2.2.symm⟩
  · rw [List.concat_eq_append] at hrest
    subst hrest
    right
    have h3 : log ++ [y] = (before ++ x :: rest) ++ [z] := by simpa using h
    have h2 := List.append_inj' h3 rfl
    have hz : y = z := by simpa using h2.2
    subst hz
    exact ⟨rest, rfl, h2.1⟩

/-- The three outcomes of one iteration of the loop of `contend_for_buffer` inside `step`. -/
theorem step_attempt_cases (cfg : Setup) (s s1 : World) (w : Nat)
    (h : step cfg s (Action.attempt w) = some s1) :
    (s.pc w = Pc.top ∨ s.pc w = Pc.contending)
    ∧ ∃ off, draw_offset (cfg.rand_r (s.data w).seed).1 (cfg.workers w).pool_size_bytes = some off
      ∧ ((load32 s.mem (((cfg.pool : Int) + off).toNat + offsetof_lock) ≠ SPIN_FREE
          ∧ ∃ dp, s1 = { s with
              pc := fun x => if x = w then Pc.contending else s.pc x
              data := fun x => if x = w then dp else s.data x })
        ∨ (load32 s.mem (((cfg.pool : Int) + off).toNat + offsetof_lock) = SPIN_FREE
          ∧ ∃ dp, s1 =
            { mem := store64 (spin_acquire s.mem (((cfg.pool : Int) + off).toNat + offsetof_lock))
                (((cfg.pool : Int) + off).toNat + offsetof_thread_id) (cfg.workers w).tid
              pc := fun x => if x = w then Pc.holding ((cfg.pool : Int) + off).toNat else s.pc x
              data := fun x => if x = w then dp else s.data x
              log := s.log ++ [(w, LogEntry.acquired ((cfg.pool : Int) + off).toNat)] })) := by
  simp only [step] at h
  by_cases hpc : s.pc w = Pc.top ∨ s.pc w = Pc.contending
  · rw [if_pos hpc] at h
    refine ⟨hpc, ?_⟩
    cases hd : draw_offset (cfg.rand_r (s.data w).seed).1 (cfg.workers w).pool_size_bytes with
    | none =>
      simp only [next_buffer, hd, Option.map_none'] at h
      cases h
    | some off =>
      refine ⟨off, rfl, ?_⟩
      simp only [next_buffer, hd, Option.map_some'] at h
      by_cases hsp : load32 s.mem (((cfg.pool : Int) + off).toNat + offsetof_lock)
          = SPIN_FREE
      · right
        refine ⟨hsp, ?_⟩
        simp only [pthread_spin_trylock, hsp, if_true] at h
        rw [contend_for_buffer_acquired cfg.rand_r cfg.pool (cfg.workers w) [] (s.data w) s.mem
          off hd] at h
        simp only [Option.some.injEq] at h
        exact ⟨_, h.symm⟩
      · left
        refine ⟨hsp, ?_⟩
        simp only [pthread_spin_trylock, hsp, if_false] at h
        rw [contend_for_buffer_busy cfg.rand_r cfg.pool (cfg.workers w) [] (s.data w) s.mem
          off hd, contend_for_buffer] at h
        simp only [Option.some.injEq] at h
        exact ⟨_, h.symm⟩
  · rw [if_neg hpc] at h
    cases h

theorem log_discipline_start (m : Memory) (data : Nat → thread_data) :
    log_discipline (start m data) := by
  refine ⟨?_, ?_, ?_⟩
  · intro w buffer h
    cases h
  · intro w buffer h
    cases h
  · intro before after w buffer h
    simp [start] at h

/-- A worker that moves to a position in which it holds nothing, without logging, keeps the
log discipline. -/
theorem log_discipline_idle (s : World) (w : Nat) (p : Pc) (mem : Memory)
    (data : Nat → thread_data)
    (hp : ∀ buffer, p ≠ Pc.holding buffer ∧ p ≠ Pc.dirtied buffer) (hs : log_discipline s) :
    log_discipline
      { mem := mem, pc := fun x => if x = w then p else s.pc x, data := data, log := s.log } := by
  obtain ⟨h3, h4, h5⟩ := hs
  refine ⟨?_, ?_, h5⟩
  · intro x buffer h
    simp only at h
    by_cases hx : x = w
    · rw [if_pos hx] at h
      exact absurd h (hp buffer).1
    · rw [if_neg hx] at h
      exact h3 x buffer h
  · intro x buffer h
    simp only at h
    by_cases hx : x = w
    · rw [if_pos hx] at h
      exact absurd h (hp buffer).2
    · rw [if_neg hx] at h
      exact h4 x buffer h

/-- An acquisition, logged, keeps the log discipline. -/
theorem log_discipline_acquire (s : World) (w buffer : Nat) (mem : Memory)
    (data : Nat → thread_data) (hs : log_discipline s) :
    log_discipline
      { mem := mem
        pc := fun x => if x = w then Pc.holding buffer else s.pc x
        data := data
        log := s.log ++ [(w, LogEntry.acquired buffer)] } := by
  obtain ⟨h3, h4, h5⟩ := hs
  refine ⟨?_, ?_, ?_⟩
  · intro x b h
    simp only at h
    by_cases hx : x = w
    · rw [if_pos hx] at h
      cases h
      subst hx
      exact ⟨log_of x s.log, by rw [log_of_append, log_of_single_same]⟩
    · rw [if_neg hx] at h
      obtain ⟨earlier, he⟩ := h3 x b h
      exact ⟨earlier, by
        rw [log_of_append, log_of_single_other x w _ (Ne.symm hx), List.append_nil, he]⟩
  · intro x b h
    simp only at h
    by_cases hx : x = w
    · rw [if_pos hx] at h
      cases h
    · rw [if_neg hx] at h
      obtain ⟨earlier, he⟩ := h4 x b h
      exact ⟨earlier, by
        rw [log_of_append, log_of_single_other x w _ (Ne.symm hx), List.append_nil, he]⟩
  · intro before after x b h
    rcases split_extended_log s.log before after _ _ h with ⟨_, _, hxy⟩ | ⟨rest, _, hlog⟩
    · cases hxy
    · exact h5 before rest x b hlog

/-- Dirtying the buffer a worker holds, logged, keeps the log discipline. -/
theorem log_discipline_dirty (s : World) (w buffer : Nat) (hpc : s.pc w = Pc.holding buffer)
    (hs : log_discipline s) :
    log_discipline
      { s with
        mem := dirty_buffer_intensive buffer s.mem
        pc := fun x => if x = w then Pc.dirtied buffer else s.pc x
        log := s.log ++ [(w, LogEntry.wrote buffer)] } := by
  obtain ⟨h3, h4, h5⟩ := hs
  refine ⟨?_, ?_, ?_⟩
  · intro x b h
    simp only at h
    by_cases hx : x = w
    · rw [if_pos hx] at h
      cases h
    · rw [if_neg hx] at h
      obtain ⟨earlier, he⟩ := h3 x b h
      exact ⟨earlier, by
        rw [log_of_append, log_of_single_other x w _ (Ne.symm hx), List.append_nil, he]⟩
  · intro x b h
    simp only at h
    by_cases hx : x = w
    · rw [if_pos hx] at h
      cases h
      subst hx
      obtain ⟨earlier, he⟩ := h3 _ _ hpc
      exact ⟨earlier, by
        rw [log_of_append, log_of_single_same, he, List.append_assoc]
        rfl⟩
    · rw [if_neg hx] at h
      obtain ⟨earlier, he⟩ := h4 x b h
      exact ⟨earlier, by
        rw [log_of_append, log_of_single_other x w _ (Ne.symm hx), List.append_nil, he]⟩
  · intro before after x b h
    rcases split_extended_log s.log before after _ _ h with ⟨_, _, hxy⟩ | ⟨rest, _, hlog⟩
    · cases hxy
    · exact h5 before rest x b hlog

/-- Releasing the buffer a worker has dirtied, logged, keeps the log discipline. -/
theorem log_discipline_release (s : World) (w buffer : Nat) (hpc : s.pc w = Pc.dirtied buffer)
    (hs : log_discipline s) :
    log_discipline
      { s with
        mem := release_buffer buffer s.mem
        pc := fun x => if x = w then Pc.top else s.pc x
        log := s.log ++ [(w, LogEntry.released buffer)] } := by
  obtain ⟨h3, h4, h5⟩ := hs
  refine ⟨?_, ?_, ?_⟩
  · intro x b h
    simp only at h
    by_cases hx : x = w
    · rw [if_pos hx] at h
      cases h
    · rw [if_neg hx] at h
      obtain ⟨earlier, he⟩ := h3 x b h
      exact ⟨earlier, by
        rw [log_of_append, log_of_single_other x w _ (Ne.symm hx), List.append_nil, he]⟩
  · intro x b h
    simp only at h
    by_cases hx : x = w
    · rw [if_pos hx] at h
      cases h
    · rw [if_neg hx] at h
      obtain ⟨earlier, he⟩ := h4 x b h
      exact ⟨earlier, by
        rw [log_of_append, log_of_single_other x w _ (Ne.symm hx), List.append_nil, he]⟩
  · intro before after x b h
    rcases split_extended_log s.log before after _ _ h with ⟨_, hb, hxy⟩ | ⟨rest, _, hlog⟩
    · cases hxy
      rw [hb]
      exact h4 _ _ hpc
    · exact h5 before rest x b hlog

theorem step_log_discipline (cfg : Setup) (s s1 : World) (a : Action)
    (h : step cfg s a = some s1) (hs : log_discipline s) : log_discipline s1 := by
  cases a with
  | attempt w =>
    obtain ⟨_, off, _, hcase⟩ := step_attempt_cases cfg s s1 w h
    rcases hcase with ⟨_, dp, rfl⟩ | ⟨_, dp, rfl⟩
    · exact log_discipline_idle s w Pc.contending s.mem _
        (fun _ => ⟨fun e => (by cases e), fun e => (by cases e)⟩) hs
    · exact log_discipline_acquire s w _ _ _ hs
  | dirty w =>
    simp only [step] at h
    cases hpc : s.pc w with
    | holding buffer =>
      rw [hpc] at h
      simp only [Option.some.injEq] at h
      rw [← h]
      exact log_discipline_dirty s w buffer hpc hs
    | top => rw [hpc] at h; cases h
    | contending => rw [hpc] at h; cases h
    | dirtied buffer => rw [hpc] at h; cases h
    | finished => rw [hpc] at h; cases h
  | release w =>
    simp only [step] at h
    cases hpc : s.pc w with
    | dirtied buffer =>
      rw [hpc] at h
      simp only [Option.some.injEq] at h
      rw [← h]
      exact log_discipline_release s w buffer hpc hs
    | top => rw [hpc] at h; cases h
    | contending => rw [hpc] at h; cases h
    | holding buffer => rw [hpc] at h; cases h
    | finished => rw [hpc] at h; cases h
  | timeout w =>
    simp only [step] at h
    by_cases hpc : s.pc w = Pc.top
    · rw [if_pos hpc] at h
      simp only [Option.some.injEq] at h
      rw [← h]
      exact log_discipline_idle s w Pc.finished s.mem s.data
        (fun _ => ⟨fun e => (by cases e), fun e => (by cases e)⟩) hs
    · rw [if_neg hpc] at h
      cases h

theorem exec_log_discipline (cfg : Setup) (schedule : List Action) :
    ∀ s s1 : World, exec cfg schedule s = some s1 → log_discipline s → log_discipline s1 := by
  induction schedule with
  | nil =>
    intro s s1 h hs
    rw [exec] at h
    cases h
    exact hs
  | cons a rest ih =>
    intro s s1 h hs
    rw [exec] at h
    cases hstep : step cfg s a with
    | none =>
      rw [hstep] at h
      cases h
    | some s2 =>
      rw [hstep] at h
      exact ih s2 s1 h (step_log_discipline cfg s s2 a hstep hs)

/-- In every state reached by any interleaving, every release in the log is preceded, in the
log of the releasing worker, by its acquisition and its write of the same buffer: a worker
releases only the buffer it acquired in the same loop iteration. -/
theorem release_follows_acquire (cfg : Setup) (m : Memory) (data : Nat → thread_data)
    (schedule : List Action) (s : World)
    (h : exec cfg schedule (start m data) = some s) :
    ∀ before after w buffer, s.log = before ++ (w, LogEntry.released buffer) :: after →
      ∃ earlier,
        log_of w before = earlier ++ [LogEntry.acquired buffer, LogEntry.wrote buffer] :=
  (exec_log_discipline cfg schedule _ s h (log_discipline_start m data)).2.2

set_option maxRecDepth 100000 in
/-- C5. Two workers contend for the one buffer of an initialised pool.  Worker 0 acquires it:
the lock word goes from 1 (free) to 0; worker 1 then finds it busy.  Worker 0 dirties the
buffer: the first word it increments, at offset 0, contains the lock, which becomes 1 again
while worker 0 has not released it.  The next attempt of worker 1 therefore succeeds, and
both workers are between their acquisition and their release of the same buffer. -/
theorem two_workers_hold_one_buffer :
    load32 sample_pool (4096 + offsetof_lock) = SPIN_FREE
    ∧ (exec sample_setup [Action.attempt 0] (start sample_pool sample_data)).map
        (fun s => (s.pc 0, load32 s.mem (4096 + offsetof_lock)))
      = some (Pc.holding 4096, SPIN_HELD)
    ∧ (exec sample_setup [Action.attempt 0, Action.attempt 1]
          (start sample_pool sample_data)).map
        (fun s => (s.pc 0, s.pc 1, (s.data 1).locked_by_others))
      = some (Pc.holding 4096, Pc.contending, 1)
    ∧ (exec sample_setup [Action.attempt 0, Action.attempt 1, Action.dirty 0]
          (start sample_pool sample_data)).map
        (fun s => (s.pc 0, load32 s.mem (4096 + offsetof_lock)))
      = some (Pc.dirtied 4096, SPIN_FREE)
    ∧ (exec sample_setup sample_schedule (start sample_pool sample_data)).map
        (fun s => (s.pc 0, s.pc 1, s.log))
      = some (Pc.dirtied 4096, Pc.holding 4096,
          [(0, LogEntry.acquired 4096), (0, LogEntry.wrote 4096), (1, LogEntry.acquired 4096)]) := by
  decide

/-! ## Command line -/

/-- C7. With valid first three arguments, `main` does not reject a fourth argument other than
"0" or "1": for "2" it runs the benchmark in shared mode (`is_shared = 2`), and for "abc", which
`atoi` reads as 0, it runs it in private mode; neither run prints the usage text. -/
theorem main_runs_with_any_mode :
    main ["stress_hitm".toList, "4".toList, "16".toList, "2".toList, "2".toList]
      = drive
          { num_threads := 4, pool_size_kb := 16, pool_size_bytes := 16384,
            test_duration_sec := 2, is_shared := 2, matrix_size := 0 }
    ∧ main ["stress_hitm".toList, "4".toList, "16".toList, "2".toList, "abc".toList]
      = drive
          { num_threads := 4, pool_size_kb := 16, pool_size_bytes := 16384,
            test_duration_sec := 2, is_shared := 0, matrix_size := 26 }
    ∧ MainEvent.usage ∉
        main ["stress_hitm".toList, "4".toList, "16".toList, "2".toList, "2".toList]
    ∧ MainEvent.pthread_create 3 ∈
        main ["stress_hitm".toList, "4".toList, "16".toList, "2".toList, "2".toList]
    ∧ MainEvent.usage ∉
        main ["stress_hitm".toList, "4".toList, "16".toList, "2".toList, "abc".toList]
    ∧ MainEvent.pthread_create 3 ∈
        main ["stress_hitm".toList, "4".toList, "16".toList, "2".toList, "abc".toList] := by
  decide

theorem is_digit_bounds (c : Char) (h : is_digit c = true) : 48 ≤ c.toNat ∧ c.toNat ≤ 57 := by
  simpa [is_digit] using h

theorem is_space_of_digit (c : Char) (h : is_digit c = true) : is_space c = false := by
  obtain ⟨h1, h2⟩ := is_digit_bounds c h
  simp only [is_space, Bool.or_eq_false_iff, Bool.and_eq_false_iff, decide_eq_false_iff_not]
  omega

theorem strip_sign_of_digit (c : Char) (rest : List Char) (h : is_digit c = true) :
    strip_sign (c :: rest) = (false, c :: rest) := by
  obtain ⟨h1, h2⟩ := is_digit_bounds c h
  unfold strip_sign
  split
  · next heq =>
    injection heq with hc _
    rw [hc] at h1
    exact absurd h1 (by decide)
  · next heq =>
    injection heq with hc _
    rw [hc] at h1
    exact absurd h1 (by decide)
  · rfl

/-- On a non-empty string of decimal digits `strtoull` returns its value, or `ULLONG_MAX` when
the value does not fit. -/
theorem strtoull_of_digits (s : List Char) (hne : s ≠ []) (hall : s.all is_digit = true) :
    strtoull s = if U64 ≤ digits_value s then U64 - 1 else digits_value s := by
  obtain ⟨c, rest, rfl⟩ := List.exists_cons_of_ne_nil hne
  have hc : is_digit c = true := by
    rw [List.all_cons, Bool.and_eq_true] at hall
    exact hall.1
  have hdrop : (c :: rest).dropWhile is_space = c :: rest := by
    rw [List.dropWhile_cons, is_space_of_digit c hc]
    rfl
  have htake : (c :: rest).takeWhile is_digit = c :: rest := by
    rw [List.takeWhile_eq_self_iff]
    exact List.all_eq_true.mp hall
  unfold strtoull
  simp only [hdrop, strip_sign_of_digit c rest hc, htake, Bool.false_eq_true, if_false]

/-- C8. Whenever the `pool_size_kb` argument (`argv[2]`) is a decimal number that is not a
multiple of 4, `main` prints a message and the usage text and exits with failure, and none of
its steps allocates worker records or creates a thread (the pools are allocated by the
threads). -/
theorem main_rejects_pool_size_not_multiple_of_4 (argv : List (List Char)) (a2 : List Char)
    (harg : argv.get? 2 = some a2) (hne : a2 ≠ []) (hdigits : a2.all is_digit = true)
    (hmul : digits_value a2 % 4 ≠ 0) :
    (∃ e, main argv = [MainEvent.error_message e, MainEvent.usage, MainEvent.exit_failure])
    ∧ ∀ ev ∈ main argv, allocates_or_spawns ev = false := by
  have hkb : strtoull a2 % 4 ≠ 0 := by
    rw [strtoull_of_digits a2 hne hdigits]
    split_ifs
    · decide
    · exact hmul
  have key : ∃ e, main argv = show_usage e := by
    unfold main
    rcases argv with _ | ⟨a0, _ | ⟨a1, _ | ⟨b2, _ | ⟨a3, _ | ⟨a4, _ | ⟨a5, rest⟩⟩⟩⟩⟩⟩
    · exact ⟨_, rfl⟩
    · exact ⟨_, rfl⟩
    · exact ⟨_, rfl⟩
    · exact ⟨_, rfl⟩
    · exact ⟨_, rfl⟩
    · have hb : b2 = a2 := by simpa using harg
      subst hb
      simp only [parse_args]
      by_cases h1 : is_positive_int a1 = false
      · rw [if_pos h1]
        exact ⟨_, rfl⟩
      · rw [if_neg h1]
        by_cases h2 : is_positive_int b2 = false
        · rw [if_pos h2]
          exact ⟨_, rfl⟩
        · rw [if_neg h2, if_pos hkb]
          exact ⟨_, rfl⟩
    · exact ⟨_, rfl⟩
  obtain ⟨e, he⟩ := key
  refine ⟨⟨e, he⟩, ?_⟩
  rw [he]
  intro ev hev
  simp only [show_usage, List.mem_cons, List.mem_singleton, List.not_mem_nil, or_false] at hev
  rcases hev with rfl | rfl | rfl <;> rfl

/-- C8, at the command line `stress_hitm 4 5 2 1`. -/
theorem main_rejects_pool_size_not_multiple_of_4_witness :
    (["stress_hitm".toList, "4".toList, "5".toList, "2".toList, "1".toList].get? 2
        = some "5".toList)
    ∧ "5".toList ≠ [] ∧ "5".toList.all is_digit = true ∧ digits_value "5".toList % 4 ≠ 0
    ∧ (∃ e, main ["stress_hitm".toList, "4".toList, "5".toList, "2".toList, "1".toList]
        = [MainEvent.error_message e, MainEvent.usage, MainEvent.exit_failure])
    ∧ ∀ ev ∈ main ["stress_hitm".toList, "4".toList, "5".toList, "2".toList, "1".toList],
        allocates_or_spawns ev = false :=
  ⟨by decide, by decide, by decide, by decide,
    main_rejects_pool_size_not_multiple_of_4
      ["stress_hitm".toList, "4".toList, "5".toList, "2".toList, "1".toList] "5".toList
      (by decide) (by decide) (by decide) (by decide)⟩

/-! ## Baseline workload -/

theorem isqrt_loop_spec (bits : Nat) :
    ∀ r n : Nat, r * r ≤ n → n < (r + 2 ^ bits) * (r + 2 ^ bits) →
      isqrt_loop bits r n * isqrt_loop bits r n ≤ n
      ∧ n < (isqrt_loop bits r n + 1) * (isqrt_loop bits r n + 1) := by
  induction bits with
  | zero =>
    intro r n h1 h2
    rw [isqrt_loop]
    exact ⟨h1, by simpa using h2⟩
  | succ bits ih =>
    intro r n h1 h2
    rw [isqrt_loop]
    by_cases hc : (r + 2 ^ bits) * (r + 2 ^ bits) ≤ n
    · rw [if_pos hc]
      apply ih _ _ hc
      have e : r + 2 ^ bits + 2 ^ bits = r + 2 ^ (bits + 1) := by rw [Nat.pow_succ]; omega
      rw [e]
      exact h2
    · rw [if_neg hc]
      exact ih _ _ h1 (by omega)

/-- Below 2^128 the bisection computes the integer square root. -/
theorem isqrt_eq_sqrt (n : Nat) (h : n < 2 ^ 128) : isqrt n = Nat.sqrt n := by
  have hs := isqrt_loop_spec 64 0 n (Nat.zero_le _) (by
    have e : (0 + 2 ^ 64) * (0 + 2 ^ 64) = 2 ^ 128 := by norm_num
    rw [e]
    exact h)
  exact Nat.eq_sqrt.mpr hs

theorem floor_log2_loop_spec (fuel : Nat) :
    ∀ n : Nat, 0 < n → n < 2 ^ fuel →
      2 ^ floor_log2_loop fuel n ≤ n ∧ n < 2 ^ (floor_log2_loop fuel n + 1) := by
  induction fuel with
  | zero =>
    intro n h0 h1
    simp at h1
    omega
  | succ fuel ih =>
    intro n h0 h1
    rw [floor_log2_loop]
    by_cases h2 : 2 ≤ n
    · rw [if_pos h2]
      have hlt : n / 2 < 2 ^ fuel := by
        rw [Nat.pow_succ] at h1
        omega
      obtain ⟨ha, hb⟩ := ih (n / 2) (by omega) hlt
      rw [Nat.pow_succ] at hb ⊢
      rw [Nat.pow_succ]
      constructor <;> omega
    · rw [if_neg h2]
      simp
      omega

theorem floor_log2_spec (n : Nat) (h0 : 0 < n) (h1 : n < 2 ^ 128) :
    2 ^ floor_log2 n ≤ n ∧ n < 2 ^ (floor_log2 n + 1) :=
  floor_log2_loop_spec 128 n h0 h1

theorem u64_to_double_exact (n : Nat) (h : n < 2 ^ 53) : u64_to_double n = n := by
  unfold u64_to_double
  rw [if_pos (by simpa using h)]

theorem index_in_matrix (i j d : Nat) (hi : i < d) (hj : j < d) : i * d + j < d * d := by
  calc i * d + j < i * d + d := by omega
    _ = (i + 1) * d := by rw [Nat.succ_mul]
    _ ≤ d * d := Nat.mul_le_mul_right d hi

/-- Rounding the exact square root of an integer below 2^52 to a `double` and truncating it
gives the integer square root. -/
theorem sqrt_double_floor (x : Nat) (hx : x < 2 ^ 52) :
    double_to_ulong (sqrt_double x) = Nat.sqrt x := by
  by_cases h0 : x = 0
  · subst h0
    decide
  have hs1 : Nat.sqrt x * Nat.sqrt x ≤ x := Nat.sqrt_le x
  have hs2 : x < (Nat.sqrt x + 1) * (Nat.sqrt x + 1) := Nat.lt_succ_sqrt x
  have hsb : Nat.sqrt x < 2 ^ 26 := by
    by_contra hge
    have : 2 ^ 26 * 2 ^ 26 ≤ Nat.sqrt x * Nat.sqrt x :=
      Nat.mul_le_mul (by omega) (by omega)
    have e : (2 : Nat) ^ 26 * 2 ^ 26 = 2 ^ 52 := by norm_num
    omega
  obtain ⟨hxge, hxlt⟩ := floor_log2_spec x (by omega)
    (lt_trans hx (by norm_num : (2 : Nat) ^ 52 < 2 ^ 128))
  have hlog : floor_log2 x < 52 := by
    by_contra hge
    have : 2 ^ 52 ≤ 2 ^ floor_log2 x := Nat.pow_le_pow_right (by norm_num) (by omega)
    omega
  obtain ⟨k, hk⟩ : ∃ k, k = (105 - floor_log2 x) / 2 := ⟨_, rfl⟩
  have hk27 : 27 ≤ k := by omega
  have hk2 : floor_log2 x + 1 + 2 * k ≤ 106 := by omega
  obtain ⟨P, hP⟩ : ∃ P, P = 2 ^ k := ⟨_, rfl⟩
  have hP27 : 2 ^ 27 ≤ P := by
    rw [hP]
    exact Nat.pow_le_pow_right (by norm_num) hk27
  have h4 : 4 ^ k = P * P := by
    rw [hP, ← Nat.mul_pow]
  have hy128 : x * (P * P) < 2 ^ 128 := by
    have e1 : P * P = 2 ^ (2 * k) := by rw [hP, ← Nat.pow_add]; congr 1; omega
    have hpos : 0 < 2 ^ (2 * k) := Nat.pow_pos (by norm_num)
    calc x * (P * P) = x * 2 ^ (2 * k) := by rw [e1]
      _ < 2 ^ (floor_log2 x + 1) * 2 ^ (2 * k) := Nat.mul_lt_mul_of_pos_right hxlt hpos
      _ = 2 ^ (floor_log2 x + 1 + 2 * k) := by rw [← Nat.pow_add]
      _ ≤ 2 ^ 106 := Nat.pow_le_pow_right (by norm_num) hk2
      _ < 2 ^ 128 := by norm_num
  obtain ⟨t, ht⟩ : ∃ t, t = isqrt (x * (P * P)) := ⟨_, rfl⟩
  have hts : t = Nat.sqrt (x * (P * P)) := by rw [ht, isqrt_eq_sqrt _ hy128]
  have ht1 : t * t ≤ x * (P * P) := by rw [hts]; exact Nat.sqrt_le _
  have ht2 : x * (P * P) < (t + 1) * (t + 1) := by rw [hts]; exact Nat.lt_succ_sqrt _
  -- the root scaled by `P` is at most `t`
  have hlow : Nat.sqrt x * P ≤ t := by
    by_contra hlt
    have h1 : t + 1 ≤ Nat.sqrt x * P := by omega
    have h2 : (t + 1) * (t + 1) ≤ (Nat.sqrt x * P) * (Nat.sqrt x * P) := Nat.mul_le_mul h1 h1
    have h3 : (Nat.sqrt x * P) * (Nat.sqrt x * P) = (Nat.sqrt x * Nat.sqrt x) * (P * P) := by ring
    have h4 : (Nat.sqrt x * Nat.sqrt x) * (P * P) ≤ x * (P * P) := Nat.mul_le_mul_right _ hs1
    omega
  -- the next root scaled by `P` exceeds `t`, with room for the rounding
  have hup0 : x * (P * P) + P * P ≤ ((Nat.sqrt x + 1) * P) * ((Nat.sqrt x + 1) * P) := by
    have h1 : (x + 1) * (P * P) ≤ ((Nat.sqrt x + 1) * (Nat.sqrt x + 1)) * (P * P) :=
      Nat.mul_le_mul_right _ hs2
    have h2 : ((Nat.sqrt x + 1) * P) * ((Nat.sqrt x + 1) * P)
        = ((Nat.sqrt x + 1) * (Nat.sqrt x + 1)) * (P * P) := by ring
    have h3 : (x + 1) * (P * P) = x * (P * P) + P * P := by ring
    omega
  have hPpos : 0 < P := by omega
  have hPP : 0 < P * P := Nat.mul_pos hPpos hPpos
  have hup1 : t < (Nat.sqrt x + 1) * P := by
    by_contra hge
    have h1 : (Nat.sqrt x + 1) * P ≤ t := by omega
    have h2 := Nat.mul_le_mul h1 h1
    omega
  have hup2 : t < x * (P * P) - t * t → t + 1 < (Nat.sqrt x + 1) * P := by
    intro hround
    by_contra hge
    have hu : (Nat.sqrt x + 1) * P = t + 1 := by omega
    rw [hu] at hup0
    have h1 : (t + 1) * (t + 1) = t * t + t + (t + 1) := by ring
    have h2 : P * P < t + 1 := by omega
    have h3 : P * P < (Nat.sqrt x + 1) * P := by omega
    have h4 : (Nat.sqrt x + 1) * P ≤ P * P := Nat.mul_le_mul_right P (by omega)
    omega
  have hval : ∀ m, Nat.sqrt x * P ≤ m → m < (Nat.sqrt x + 1) * P →
      m / P % U64 = Nat.sqrt x := by
    intro m hm1 hm2
    have hdiv : m / P = Nat.sqrt x := Nat.div_eq_of_lt_le hm1 hm2
    rw [hdiv]
    apply Nat.mod_eq_of_lt
    unfold U64
    omega
  unfold sqrt_double double_to_ulong
  rw [if_neg h0]
  simp only
  rw [← hk, h4, ← ht]
  by_cases hround : t < x * (P * P) - t * t
  · rw [if_pos hround]
    simp only
    rw [← hP]
    exact hval _ (by omega) (hup2 hround)
  · rw [if_neg hround]
    simp only
    rw [← hP]
    exact hval _ hlow hup1

theorem fold_opt_preserves {σ α : Type} (P : σ → Prop) (f : σ → α → Option σ) (l : List α)
    (h : ∀ s a, a ∈ l → P s → ∃ s1, f s a = some s1 ∧ P s1) :
    ∀ s, P s → ∃ s1, fold_opt f l s = some s1 ∧ P s1 := by
  induction l with
  | nil =>
    intro s hs
    exact ⟨s, rfl, hs⟩
  | cons a rest ih =>
    intro s hs
    obtain ⟨s1, h1, hp1⟩ := h s a (List.mem_cons_self _ _) hs
    rw [fold_opt, h1]
    exact ih (fun s a ha => h s a (List.mem_cons_of_mem _ ha)) s1 hp1

theorem write_in_bounds (buf : WordBuffer) (i v n : Nat) (hs : buf.size = n) (hi : i < n) :
    ∃ buf1, buf.write i v = some buf1 ∧ buf1.size = n := by
  unfold WordBuffer.write
  rw [if_pos (by omega)]
  exact ⟨_, rfl, hs⟩

theorem read_in_bounds (buf : WordBuffer) (i n : Nat) (hs : buf.size = n) (hi : i < n) :
    ∃ v, buf.read i = some v := by
  unfold WordBuffer.read
  rw [if_pos (by omega)]
  exact ⟨_, rfl⟩

/-- With three `d × d` matrices inside the buffer, `do_some_math` reads and writes only words
of the buffer. -/
theorem do_some_math_in_bounds (d : Nat) (buf : WordBuffer) (h : 3 * (d * d) ≤ buf.size) :
    ∃ buf1, do_some_math d buf = some buf1 ∧ buf1.size = buf.size := by
  unfold do_some_math
  apply fold_opt_preserves (fun b => b.size = buf.size) _ _ _ buf rfl
  intro b i hi hb
  have hi2 : i < d := List.mem_range.mp hi
  apply fold_opt_preserves (fun b => b.size = buf.size) _ _ _ b hb
  intro b1 j hj hb1
  have hj2 : j < d := List.mem_range.mp hj
  have hij := index_in_matrix i j d hi2 hj2
  have e2 : 2 * d * d = 2 * (d * d) := Nat.mul_assoc 2 d d
  unfold math_cell
  obtain ⟨b2, hw, hb2⟩ := write_in_bounds b1 (2 * d * d + (i * d + j)) 0 buf.size hb1
    (by omega)
  rw [hw]
  simp only
  apply fold_opt_preserves (fun b => b.size = buf.size) _ _ _ b2 hb2
  intro b3 k hk hb3
  have hk2 : k < d := List.mem_range.mp hk
  have hik := index_in_matrix i k d hi2 hk2
  have hkj := index_in_matrix k j d hk2 hj2
  obtain ⟨c, hc⟩ := read_in_bounds b3 (2 * d * d + (i * d + j)) buf.size hb3 (by omega)
  obtain ⟨a, ha⟩ := read_in_bounds b3 (i * d + k) buf.size hb3 (by omega)
  obtain ⟨v, hv⟩ := read_in_bounds b3 (d * d + (k * d + j)) buf.size hb3 (by omega)
  unfold math_inner
  rw [hc, ha, hv]
  simp only
  exact write_in_bounds b3 _ _ buf.size hb3 (by omega)

/-- C10 (amended). For every byte budget `B` below 2^56, the value `main` stores in
`matrix_size` is the integer square root of `B / 3 / 8`, three matrices of that dimension take
at most `B` bytes, `do_some_math` on a buffer of `B` bytes (`B / 8` words) reads and writes
only words of the buffer, and the dimension is at least 1 when `B ≥ 4096`. -/
theorem matrices_fit_private_buffer (B : Nat) (hB : B < 2 ^ 56) :
    compute_matrix_size B = Nat.sqrt (B / 3 / 8)
    ∧ 3 * compute_matrix_size B * compute_matrix_size B * 8 ≤ B
    ∧ (∀ buf : WordBuffer, buf.size = B / 8 →
        ∃ buf1, do_some_math (compute_matrix_size B) buf = some buf1 ∧ buf1.size = buf.size)
    ∧ (4096 ≤ B → 1 ≤ compute_matrix_size B) := by
  have hn : B / 3 / 8 < 2 ^ 52 := by omega
  have hd : compute_matrix_size B = Nat.sqrt (B / 3 / 8) := by
    unfold compute_matrix_size
    rw [show sizeof_unsigned_long = 8 from rfl, u64_to_double_exact _ (by omega),
      sqrt_double_floor _ hn]
  have hsq : Nat.sqrt (B / 3 / 8) * Nat.sqrt (B / 3 / 8) ≤ B / 3 / 8 := Nat.sqrt_le _
  rw [hd]
  refine ⟨rfl, ?_, ?_, ?_⟩
  · rw [Nat.mul_assoc 3]
    omega
  · intro buf hbuf
    exact do_some_math_in_bounds _ buf (by omega)
  · intro h4096
    have hpos : 0 < B / 3 / 8 := by omega
    exact Nat.sqrt_pos.mpr hpos

/-- C10 (amended), at a budget of 12288 bytes. -/
theorem matrices_fit_private_buffer_witness :
    (12288 : Nat) < 2 ^ 56
    ∧ compute_matrix_size 12288 = Nat.sqrt (12288 / 3 / 8)
    ∧ 3 * compute_matrix_size 12288 * compute_matrix_size 12288 * 8 ≤ 12288 :=
  ⟨by decide, (matrices_fit_private_buffer 12288 (by decide)).1,
    (matrices_fit_private_buffer 12288 (by decide)).2.1⟩

/-- C10 as stated fails for a budget of 24 * (2^52 + 2^27) bytes, which `main` accepts as
`pool_size_kb = 105553119412224`: the budget divided by 24 is 67108865^2 - 1, its square root
rounds up to the `double` 67108865.0, so `matrix_size` is 67108865 and three matrices take 24
bytes more than the budget. -/
theorem matrix_size_rounds_up :
    parse_args
        ["stress_hitm".toList, "1".toList, "105553119412224".toList, "1".toList, "0".toList]
      = Parsed.accepted
          { num_threads := 1, pool_size_kb := 105553119412224,
            pool_size_bytes := 108086394278117376, test_duration_sec := 1, is_shared := 0,
            matrix_size := 67108865 }
    ∧ 108086394278117376 / 3 / 8 = 67108865 * 67108865 - 1
    ∧ compute_matrix_size 108086394278117376 = 67108865
    ∧ ¬ (3 * 67108865 * 67108865 * 8 ≤ 108086394278117376) := by
  decide

end StressHitm
